import Mathlib

/-!
Verification development for the resume-analyzer backend
(`backend/app`, Python).  Python strings and byte strings are modelled
as `List Char`; `None`-able values as `Option`; network- and
library-effectful calls (Firecrawl, urllib, pypdf, OCR, the generative
agent) as oracle fields of explicit environment structures, so the pure
control flow of the routes is embedded faithfully and the effectful
results are universally quantified.
-/

/-- Python string model: a list of characters. -/
abbrev Str := List Char

/-- Python byte-string model (the routes only compare raw bytes against
the ASCII signature `%PDF`, so bytes are modelled as characters too). -/
abbrev Bytes := List Char

/-- ASCII whitespace, the character class used by Python `str.split()`,
`str.strip()` and the regex class `\s` on the ASCII inputs this
development works over. -/
def isPySpace (c : Char) : Bool :=
  c = ' ' || c = '\t' || c = '\n' || c = '\r' || c = '\x0b' || c = '\x0c'

/-- Python truthiness of an `Optional[str]`: `None` and the empty string
are falsy. -/
def truthy : Option Str → Bool
  | none => false
  | some s => !s.isEmpty

/-- Python `a or b` on `Optional[str]` values: returns `a` when truthy,
otherwise returns `b` unchanged. -/
def pyOr (a b : Option Str) : Option Str :=
  if truthy a then a else b

/-- Python `s.strip()`: drop leading and trailing whitespace. -/
def pyStrip (s : Str) : Str :=
  ((s.dropWhile isPySpace).reverse.dropWhile isPySpace).reverse

/-- Python `s.split()` (no separator): split on whitespace runs,
dropping empty pieces.  Accumulator-based single pass. -/
def pySplitAux : Str → Str → List Str
  | [], acc => if acc.isEmpty then [] else [acc.reverse]
  | c :: rest, acc =>
    if isPySpace c then
      if acc.isEmpty then pySplitAux rest [] else acc.reverse :: pySplitAux rest []
    else
      pySplitAux rest (c :: acc)

/-- Python `s.split()` entry point. -/
def pySplit (s : Str) : List Str := pySplitAux s []

/-- Python `" ".join(words)`. -/
def joinSpace (ws : List Str) : Str := List.intercalate [' '] ws

/-- Case-insensitive literal match at the head of a string; returns the
remainder on success.  Models a regex literal under `re.IGNORECASE`. -/
def stripPrefixCI : Str → Str → Option Str
  | [], s => some s
  | _, [] => none
  | l :: ls, c :: cs => if l.toLower = c.toLower then stripPrefixCI ls cs else none

/-- Whether a literal is a case-insensitive prefix of a string. -/
def isPrefixCI (l s : Str) : Bool := (stripPrefixCI l s).isSome

/-- Regex `\s+` at the head of the string: requires at least one
whitespace character, consumes the maximal run (exact here because every
occurrence is followed by a non-whitespace pattern character). -/
def dropSpaces1 : Str → Option Str
  | [] => none
  | c :: cs => if isPySpace c then some (cs.dropWhile isPySpace) else none

/-- Regex `(\d{1,3})%` at the head of the string, with Python
backtracking semantics: the only way 1–3 digits followed by `%` can
match is to take the whole leading digit run (of length at most 3),
because any shorter take leaves a digit where `%` is required.
Returns the parsed number and the remainder after `%`. -/
def matchNumPercent (s : Str) : Option (Nat × Str) :=
  let ds := s.takeWhile Char.isDigit
  if ds.isEmpty || ds.length > 3 then none
  else
    match s.drop ds.length with
    | '%' :: rest => some (ds.foldl (fun a c => a * 10 + (c.toNat - 48)) 0, rest)
    | _ => none

/-- Regex `[:\-]` at the head of the string. -/
def matchColonDash : Str → Option Str
  | [] => none
  | c :: cs => if c = ':' || c = '-' then some cs else none

/-- Attempt of pattern `overall\s+match\s+score\s*[:\-]\s*(\d{1,3})%`
anchored at the start of the given string (`re.IGNORECASE`). -/
def matchPat1 (s : Str) : Option Nat := do
  let s ← stripPrefixCI ("overall".toList) s
  let s ← dropSpaces1 s
  let s ← stripPrefixCI ("match".toList) s
  let s ← dropSpaces1 s
  let s ← stripPrefixCI ("score".toList) s
  let s := s.dropWhile isPySpace
  let s ← matchColonDash s
  let s := s.dropWhile isPySpace
  let (v, _) ← matchNumPercent s
  pure v

/-- Attempt of pattern `match\s+score\s*[:\-]\s*(\d{1,3})%` anchored at
the start of the given string (`re.IGNORECASE`). -/
def matchPat2 (s : Str) : Option Nat := do
  let s ← stripPrefixCI ("match".toList) s
  let s ← dropSpaces1 s
  let s ← stripPrefixCI ("score".toList) s
  let s := s.dropWhile isPySpace
  let s ← matchColonDash s
  let s := s.dropWhile isPySpace
  let (v, _) ← matchNumPercent s
  pure v

/-- Attempt of pattern `(\d{1,3})%\s*(?:overall\s+)?match` anchored at
the start of the given string: the optional group is tried greedily and
abandoned (regex backtracking) when `match` does not follow it. -/
def matchPat3 (s : Str) : Option Nat :=
  match matchNumPercent s with
  | none => none
  | some (v, r) =>
    let r := r.dropWhile isPySpace
    let withOverall : Option Str := do
      let t ← stripPrefixCI ("overall".toList) r
      let t ← dropSpaces1 t
      stripPrefixCI ("match".toList) t
    match withOverall with
    | some _ => some v
    | none =>
      match stripPrefixCI ("match".toList) r with
      | some _ => some v
      | none => none

/-- The `re.search` scan: try the anchored matcher at every successive
start position, returning the leftmost success. -/
def searchFrom (m : Str → Option Nat) : Str → Option Nat
  | [] => m []
  | s@(_ :: rest) =>
    match m s with
    | some v => some v
    | none => searchFrom m rest

/-- The ordered pattern loop of `parse_score_from_markdown`: each
pattern contributes its leftmost match; a parsed value is returned only
when it lies in `[0, 100]`, otherwise the next pattern is tried
(the source's `pass` inside the range guard). -/
def runPatterns : List (Str → Option Nat) → Str → Option Nat
  | [], _ => none
  | p :: ps, t =>
    match searchFrom p t with
    | some v => if v ≤ 100 then some v else runPatterns ps t
    | none => runPatterns ps t

/-- Model of `backend/app/utils/scoring.py`, `parse_score_from_markdown`:
collapse whitespace with `" ".join(md.split())`, then try the three
patterns in priority order. -/
def parse_score_from_markdown (md : Option Str) : Option Nat :=
  match md with
  | none => none
  | some s =>
    if s.isEmpty then none
    else
      let text := joinSpace (pySplit s)
      runPatterns [matchPat1, matchPat2, matchPat3] text

example : parse_score_from_markdown (some ("## Overall Match Score: 87%".toList)) = some 87 := by decide
example : parse_score_from_markdown (some ("Score was great, around 150%".toList)) = none := by decide
example : parse_score_from_markdown (some ("match score - 42% yes".toList)) = some 42 := by decide
example : parse_score_from_markdown (some ("we saw 95% overall match here".toList)) = some 95 := by decide
example : parse_score_from_markdown (some ("result 12345% match".toList)) = none := by decide

/-! Helper facts used by termination arguments. -/

theorem stripPrefixCI_length {l s r : Str} (h : stripPrefixCI l s = some r) :
    r.length + l.length = s.length := by
  induction l generalizing s with
  | nil =>
    simp [stripPrefixCI] at h
    simp [h]
  | cons a as ih =>
    cases s with
    | nil => simp [stripPrefixCI] at h
    | cons c cs =>
      simp only [stripPrefixCI] at h
      by_cases hc : a.toLower = c.toLower
      · simp [hc] at h
        have := ih h
        simp [List.length_cons]
        omega
      · simp [hc] at h

theorem dropWhileLengthLe (p : Char → Bool) : ∀ l : Str, (l.dropWhile p).length ≤ l.length := by
  intro l
  induction l with
  | nil => simp [List.dropWhile]
  | cons c cs ih =>
    simp only [List.dropWhile]
    by_cases h : p c
    · simp [h]; omega
    · simp [h]

/-- Leftmost index at which `pat` is a case-insensitive prefix of a
suffix of the string: the end position of a non-greedy `[\s\S]*?`
followed by the literal `pat` under `re.IGNORECASE`. -/
def findCI (pat : Str) : Str → Option Nat
  | [] => if isPrefixCI pat [] then some 0 else none
  | s@(_ :: rest) =>
    if isPrefixCI pat s then some 0
    else (findCI pat rest).map (· + 1)

/-- Model of `re.sub(openT + non-greedy-anything + close, " ", s)` under
`re.IGNORECASE`, scanning left to right, replacing each non-overlapping
match with one space and continuing after the match. -/
def subBlock (openT close : Str) (ho : openT ≠ []) : Str → Str
  | [] => []
  | c :: rest =>
    match stripPrefixCI openT (c :: rest) with
    | some r =>
      match findCI close r with
      | some i => ' ' :: subBlock openT close ho ((c :: rest).drop (openT.length + i + close.length))
      | none => c :: subBlock openT close ho rest
    | none => c :: subBlock openT close ho rest
termination_by s => s.length
decreasing_by
  · have hpos : 0 < openT.length := List.length_pos.mpr ho
    simp only [List.length_cons, List.length_drop]
    omega
  · simp

/-- The script-block substitution of `_strip_html_tags` (the literals
`"<script"` and `"</script>"` are written in head-normal form to ease
reasoning about the leading `<`). -/
def subScript (s : Str) : Str :=
  subBlock ('<' :: ("script".toList)) ('<' :: ("/script>".toList)) (by simp) s

/-- The style-block substitution of `_strip_html_tags`. -/
def subStyle (s : Str) : Str :=
  subBlock ('<' :: ("style".toList)) ('<' :: ("/style>".toList)) (by simp) s

/-- Model of `re.sub(r"<[^>]+>", " ", s)`: at each `<`, a match needs at
least one following non-`>` character and then a `>`; the whole span is
replaced by one space, otherwise scanning advances one character. -/
def subTags : Str → Str
  | [] => []
  | c :: rest =>
    let body := rest.takeWhile (· != '>')
    if c = '<' && !body.isEmpty && !(rest.drop body.length).isEmpty then
      ' ' :: subTags (rest.drop (body.length + 1))
    else c :: subTags rest
termination_by s => s.length
decreasing_by
  · simp only [List.length_cons, List.length_drop]
    omega
  · simp

/-- Model of `re.sub(r"\s+", " ", s)`: every whitespace run becomes one
space. -/
def collapseWS : Str → Str
  | [] => []
  | c :: rest =>
    if isPySpace c then ' ' :: collapseWS (rest.dropWhile isPySpace)
    else c :: collapseWS rest
termination_by s => s.length
decreasing_by
  · simp only [List.length_cons]
    exact Nat.lt_succ_of_le (dropWhileLengthLe _ _)
  · simp

/-- Model of `backend/app/services/scrape.py`, `_strip_html_tags`:
remove script blocks, then style blocks, then remaining tags, collapse
whitespace runs, and strip.  The source's `except` arm is unreachable in
this pure model (the regex substitutions cannot raise). -/
def _strip_html_tags (html : Str) : Str :=
  pyStrip (collapseWS (subTags (subStyle (subScript html))))

/-- Model of `backend/app/services/scrape.py`, `_tidy_text`: strip, then
truncate to `maxLen` characters. -/
def _tidy_text (text : Str) (maxLen : Nat := 15000) : Str :=
  let t := pyStrip text
  if t.length > maxLen then t.take maxLen else t


/-- Python `pat in s` (exact-case substring test). -/
def hasSub (pat : Str) : Str → Bool
  | [] => pat.isEmpty
  | s@(_ :: rest) => pat.isPrefixOf s || hasSub pat rest

/-- A value stored in the dict returned by the Firecrawl client: either
a Python string or some non-string value with a given truthiness. -/
inductive FireVal
  | str (v : Str)
  | nonStr (truthyFlag : Bool)

/-- Python truthiness of a Firecrawl dict value. -/
def fireTruthy : FireVal → Bool
  | .str v => !v.isEmpty
  | .nonStr t => t

/-- Effect oracle for `scrape_job_description`: the configured
credential, the Firecrawl client (both `scrape_url` and `scrape`
attempts collapsed: `none` covers import/construction/call failure and
non-dict results), and the direct `urllib` fetch (`none` = exception,
`some` = decoded body). -/
structure ScrapeEnv where
  apiKey : Option Str
  firecrawl : Str → Option (Str → Option FireVal)
  urlFetch : Str → Option Str

/-- The ordered preference list of structured content keys. -/
def fireKeys : List Str :=
  [("markdown".toList), ("md".toList), ("content".toList), ("text".toList), ("html".toList)]

/-- The key-selection loop of the Firecrawl branch: first present,
truthy key wins; a truthy non-string value is skipped (the `isinstance`
guard); a selected string is HTML-stripped only when it contains both
`<` and `</`. -/
def firstKeyResult (d : Str → Option FireVal) : List Str → Option Str
  | [] => none
  | k :: ks =>
    match d k with
    | some v =>
      if fireTruthy v then
        match v with
        | .str val =>
          if hasSub ("<".toList) val && hasSub ("</".toList) val then
            some (_tidy_text (_strip_html_tags val))
          else some (_tidy_text val)
        | .nonStr _ => firstKeyResult d ks
      else firstKeyResult d ks
    | none => firstKeyResult d ks

/-- Model of `backend/app/services/scrape.py`, `scrape_job_description`:
Firecrawl branch when a credential is configured, else (or on its
failure or fall-through) the direct urllib fetch; any failure yields
`none`. -/
def scrape_job_description (env : ScrapeEnv) (url : Str) : Option Str :=
  if url.isEmpty then none
  else
    let viaFirecrawl : Option Str :=
      match env.apiKey with
      | some k =>
        if k.isEmpty then none
        else
          match env.firecrawl url with
          | some d => firstKeyResult d fireKeys
          | none => none
      | none => none
    match viaFirecrawl with
    | some s => some s
    | none =>
      match env.urlFetch url with
      | some html => some (_tidy_text (_strip_html_tags html))
      | none => none

/-! Validators (`backend/app/utils/validators.py`) and the settings
constants (`backend/app/core/settings.py`). -/

/-- Characters allowed after the first letter of a URL scheme by
`urllib.parse.urlparse`. -/
def schemeChar (c : Char) : Bool := c.isAlpha || c.isDigit || c = '+' || c = '-' || c = '.'

/-- Scheme extraction of `urllib.parse.urlparse`: when the text before
the first `:` is a non-empty letter-led run of scheme characters, it is
the (lower-cased) scheme and the remainder follows the colon; otherwise
there is no scheme. -/
def splitScheme (url : Str) : Str × Str :=
  let pre := url.takeWhile (· != ':')
  if pre.length = url.length then ([], url)
  else
    match pre with
    | [] => ([], url)
    | c :: _ =>
      if c.isAlpha && pre.all schemeChar then (pre.map Char.toLower, url.drop (pre.length + 1))
      else ([], url)

/-- Netloc extraction of `urllib.parse.urlparse`: present only after
`//`, running up to the next `/`, `?` or `#`. -/
def netlocOf (rest : Str) : Str :=
  match rest with
  | '/' :: '/' :: r => r.takeWhile (fun c => c != '/' && c != '?' && c != '#')
  | _ => []

/-- Model of `is_valid_url`: http/https scheme and a non-empty netloc. -/
def is_valid_url (url : Str) : Bool :=
  let p := splitScheme url
  (p.1 == ("http".toList) || p.1 == ("https".toList)) && !(netlocOf p.2).isEmpty

example : is_valid_url ("https://example.com/job".toList) = true := by decide
example : is_valid_url ("notaurl".toList) = false := by decide
example : is_valid_url ("http://".toList) = false := by decide

/-- Model of `is_valid_pdf`: declared MIME type must be
`application/pdf` and the payload must start with the 4-byte `%PDF`
signature. -/
def is_valid_pdf (mimetype : Option String) (content : Bytes) : Bool :=
  if mimetype = some "application/pdf" then ("%PDF".toList).isPrefixOf content else false

def MAX_FILE_SIZE_BYTES : Nat := 10 * 1024 * 1024
def HR_BATCH_MAX_FILE_SIZE_BYTES : Nat := 2 * 1024 * 1024
def HR_BATCH_MAX_FILES : Nat := 10

/-- Error envelope of `backend/app/utils/responses.py`,
`error_response` (the JSON `details` payload, not examined by any
theorem here, is elided). -/
structure ErrResp where
  code : String
  message : String
  statusCode : Nat
deriving DecidableEq, Repr

/-- Model of `error_response` with its default status code 400. -/
def error_response (code message : String) (statusCode : Nat := 400) : ErrResp :=
  ⟨code, message, statusCode⟩

/-! The individual analysis route
(`backend/app/api/routes_individual.py`). -/

/-- The `AgentInputs` dataclass shared by the agent modules. -/
structure AgentInputs where
  resume_text : Str
  job_title : Str
  job_description_text : Option Str := none
  job_description_url : Option Str := none
  custom_instructions : Option Str := none
  hr_questions : Option (List Str) := none
deriving DecidableEq

/-- Effect oracle for the individual route: the result of
`resume.read(MAX_FILE_SIZE_BYTES + 1)` (`none` = exception), the two
text extractors (library calls on opaque PDF bytes), and the
generative-agent invocation (`Except` error = any exception in the
import/analysis block). -/
structure IndivEnv where
  readResult : Option Bytes
  extractPyPdf : Bytes → Str
  extractOcr : Bytes → Option Str
  runIndividual : AgentInputs → Except String Str

/-- The form fields of a single-item request; the resume file itself is
a required FastAPI parameter, its declared MIME type is carried here. -/
structure IndivRequest where
  contentType : Option String
  jobTitleCamel : Option Str := none
  jobTitleSnake : Option Str := none
  jobDescriptionCamel : Option Str := none
  jobDescriptionSnake : Option Str := none
  jobLinkCamel : Option Str := none
  jobLinkSnake : Option Str := none

/-- Response of the single-item endpoint: the success payload or a
typed error envelope. -/
inductive SingleResponse
  | err (e : ErrResp)
  | ok (analysisReport : Str)
deriving DecidableEq

/-- Model of `_validate_required`: since `resume` is a required
`File(...)` parameter the `resume is None` arm cannot fire, leaving the
job-title presence check. -/
def _validate_required (job_title : Option Str) : Option ErrResp :=
  if !truthy job_title then
    some (error_response ("MISSING_FIELDS") ("Required fields are missing") 422)
  else none

/-- Model of `_validate_job_link`. -/
def _validate_job_link (job_link : Option Str) : Option ErrResp :=
  if truthy job_link && !is_valid_url (job_link.getD []) then
    some (error_response ("INVALID_JOB_LINK") ("Job link must be a valid URL") 422)
  else none

/-- Model of `_validate_pdf_file`: size ceiling, then MIME/signature
validation, then the corruption check. -/
def _validate_pdf_file (contents : Bytes) (content_type : Option String) : Option ErrResp :=
  let size := contents.length
  if size > MAX_FILE_SIZE_BYTES then
    some (error_response ("FILE_TOO_LARGE") ("File size exceeds 10MB limit") 413)
  else if !is_valid_pdf content_type contents then
    some (error_response ("INVALID_FILE_TYPE") ("Only PDF files are allowed") 415)
  else if !(("%PDF".toList).isPrefixOf contents) || size < 5 then
    some (error_response ("CORRUPTED_PDF") ("PDF file appears to be corrupted") 400)
  else none

/-- Model of the `/analyze-resume` endpoint body. -/
def analyze_resume (env : IndivEnv) (req : IndivRequest) : SingleResponse :=
  let job_title := pyOr req.jobTitleCamel req.jobTitleSnake
  let job_description := pyOr req.jobDescriptionCamel req.jobDescriptionSnake
  let job_link := pyOr req.jobLinkCamel req.jobLinkSnake
  match _validate_required job_title with
  | some e => .err e
  | none =>
    match _validate_job_link job_link with
    | some e => .err e
    | none =>
      match env.readResult with
      | none =>
        .err (error_response ("INTERNAL_ERROR")
          ("An unexpected error occurred while processing your request") 500)
      | some contents =>
        match _validate_pdf_file contents req.contentType with
        | some e => .err e
        | none =>
          let extracted := env.extractPyPdf contents
          let extracted :=
            if extracted.isEmpty then
              match env.extractOcr contents with
              | some t => if t.isEmpty then extracted else t
              | none => extracted
            else extracted
          if extracted.isEmpty then
            .err (error_response ("TEXT_EXTRACTION_FAILED") ("Could not extract text from PDF") 422)
          else
            match env.runIndividual ⟨extracted, job_title.getD [], job_description, job_link, none, none⟩ with
            | .ok report => .ok report
            | .error _ =>
              .err (error_response ("ANALYSIS_FAILED") ("Failed to analyze resume content") 502)

/-! The batch analysis route (`backend/app/api/routes_batch.py`). -/

/-- One uploaded file of a batch request: its name, declared MIME type
and the outcome of `resume.read(HR_BATCH_MAX_FILE_SIZE_BYTES + 1)`
(`none` = read exception). -/
structure BatchFile where
  filename : Option Str
  contentType : Option String
  readResult : Option Bytes
deriving DecidableEq

/-- Effect oracle for the batch route: the scrape environment consumed
by `scrape_job_description`, the extractors, the recruiter agent call
(`Except` error = any exception in the import/analysis block, carrying
`str(e)`), and `json.loads` restricted to its use on the HR-questions
field (`none` = exception or non-list result). -/
structure BatchEnv where
  scrapeEnv : ScrapeEnv
  extractPyPdf : Bytes → Str
  extractOcr : Bytes → Option Str
  runRecruiter : AgentInputs → Except String Str
  jsonList : Str → Option (List Str)

/-- The form fields of a batch request. -/
structure BatchRequest where
  resumes : List BatchFile
  jobTitleCamel : Option Str := none
  jobTitleSnake : Option Str := none
  jobDescriptionCamel : Option Str := none
  jobDescriptionSnake : Option Str := none
  jobLinkCamel : Option Str := none
  jobLinkSnake : Option Str := none
  hrFocusCamel : Option Str := none
  hrFocusSnake : Option Str := none
  hrQuestionsCamel : Option Str := none
  hrQuestionsSnake : Option Str := none

/-- One entry of the batch result list (absent JSON keys are `none`). -/
structure BatchItem where
  name : Option Str
  success : Bool
  score : Option Nat := none
  report : Option Str := none
  error : Option String := none
deriving DecidableEq

/-- Response of the batch endpoint. -/
inductive BatchResponse
  | err (e : ErrResp)
  | ok (results : List BatchItem) (message : String)
deriving DecidableEq

/-- The instruction-inputs assembly of the batch loop body: the JD text
for the agent prefers the batch-scraped cache and falls back to the
provided description; the URL is suppressed exactly when the cache is
truthy; the custom notes gather the pre-scraped notice and the HR focus
block. -/
def batchAgentInputs (text job_title : Str) (job_description job_link : Option Str)
    (batch_scraped_jd : Option Str) (hr_focus : Option Str) (hr_questions : Option (List Str)) :
    AgentInputs :=
  let jd_text_for_agent := pyOr batch_scraped_jd job_description
  let jd_url_for_agent := if truthy batch_scraped_jd then none else job_link
  let custom_notes : List Str :=
    (if truthy batch_scraped_jd then
      [("Job description was pre-scraped server-side. Do NOT scrape the JD URL again; use the provided JD text.".toList),
       ("You may consult the provided reference links for resume writing guidance if needed.".toList)]
     else []) ++
    (if truthy hr_focus && !(pyStrip (hr_focus.getD [])).isEmpty then
      [(("HR Focus/Questions (PRIORITY — evaluate these first; treat JD as secondary):\n".toList) ++ pyStrip (hr_focus.getD []))]
     else [])
  let custom_note : Option Str :=
    if custom_notes.isEmpty then none else some (List.intercalate ("\n".toList) custom_notes)
  ⟨text, job_title, jd_text_for_agent, jd_url_for_agent, custom_note, hr_questions⟩

/-- The body of the per-resume loop of `analyze_resumes_batch`: every
`continue` arm appends exactly one entry, so the loop is the map of
this function over the uploads. -/
def processBatchItem (env : BatchEnv) (job_title : Str) (job_description job_link : Option Str)
    (batch_scraped_jd : Option Str) (hr_focus : Option Str) (hr_questions : Option (List Str))
    (resume : BatchFile) : BatchItem :=
  match resume.readResult with
  | none => ⟨resume.filename, false, none, none, some ("Read error")⟩
  | some contents =>
    if contents.length > HR_BATCH_MAX_FILE_SIZE_BYTES then
      ⟨resume.filename, false, none, none, some ("File size exceeds 2MB limit")⟩
    else if !is_valid_pdf resume.contentType contents then
      ⟨resume.filename, false, none, none, some ("Only PDF files are allowed")⟩
    else
      let text := env.extractPyPdf contents
      let text :=
        if text.isEmpty then
          match env.extractOcr contents with
          | some t => if t.isEmpty then text else t
          | none => text
        else text
      if text.isEmpty then
        ⟨resume.filename, false, none, none, some ("Could not extract text from PDF")⟩
      else
        match env.runRecruiter (batchAgentInputs text job_title job_description job_link
          batch_scraped_jd hr_focus hr_questions) with
        | .ok report =>
          ⟨resume.filename, true, parse_score_from_markdown (some report), some report, none⟩
        | .error e => ⟨resume.filename, false, none, none, some ("Analysis failed: " ++ e)⟩


/-- The two-spelling normalization `job_title_camel or job_title_snake`. -/
def reqJobTitle (req : BatchRequest) : Option Str := pyOr req.jobTitleCamel req.jobTitleSnake

/-- The two-spelling normalization of the job description field. -/
def reqJobDescription (req : BatchRequest) : Option Str :=
  pyOr req.jobDescriptionCamel req.jobDescriptionSnake

/-- The two-spelling normalization of the job link field. -/
def reqJobLink (req : BatchRequest) : Option Str := pyOr req.jobLinkCamel req.jobLinkSnake

/-- The two-spelling normalization of the HR focus field. -/
def reqHrFocus (req : BatchRequest) : Option Str := pyOr req.hrFocusCamel req.hrFocusSnake

/-- The HR-questions parse: on a truthy raw value, `json.loads` must
yield a list, whose first five entries are kept; any exception or
non-list result leaves the questions absent. -/
def reqHrQuestions (env : BatchEnv) (req : BatchRequest) : Option (List Str) :=
  match pyOr req.hrQuestionsCamel req.hrQuestionsSnake with
  | some raw =>
    if raw.isEmpty then none
    else
      match env.jsonList raw with
      | some l => some (l.take 5)
      | none => none
  | none => none

/-- The pre-scrape condition of the batch route: a link is present and
the provided description is absent or shorter than 200 characters after
stripping. -/
def batchDoScrape (req : BatchRequest) : Bool :=
  truthy (reqJobLink req) &&
    (!truthy (reqJobDescription req) ||
      (pyStrip ((reqJobDescription req).getD [])).length < 200)

/-- The batch-level cached JD: the one scrape call when the pre-scrape
condition holds, with truthy results shorter than 50 characters
discarded. -/
def batchCachedJD (env : BatchEnv) (req : BatchRequest) : Option Str :=
  if batchDoScrape req then
    let s := scrape_job_description env.scrapeEnv ((reqJobLink req).getD [])
    if truthy s && (s.getD []).length < 50 then none else s
  else none

/-- The per-resume loop of the batch route, sharing the one cached JD
across all items. -/
def batchItems (env : BatchEnv) (req : BatchRequest) : List BatchItem :=
  req.resumes.map
    (processBatchItem env ((reqJobTitle req).getD []) (reqJobDescription req) (reqJobLink req)
      (batchCachedJD env req) (reqHrFocus req) (reqHrQuestions env req))

/-- Model of the `/analyze-resumes-batch` endpoint body, paired with
the number of `scrape_job_description` invocations it performs: the
counter is 1 exactly when the single pre-loop call site
(`batchCachedJD`) fires, and the loop body contains no scrape call. -/
def analyze_resumes_batch (env : BatchEnv) (req : BatchRequest) : BatchResponse × Nat :=
  let missing : List String :=
    (if !truthy (reqJobTitle req) then ["jobTitle"] else []) ++
    (if req.resumes.isEmpty then ["resumes"] else [])
  if !missing.isEmpty then
    (.err (error_response ("MISSING_FIELDS") ("Required fields are missing") 422), 0)
  else if !(truthy (reqJobLink req) && !(pyStrip ((reqJobLink req).getD [])).isEmpty) &&
          !(truthy (reqJobDescription req) && !(pyStrip ((reqJobDescription req).getD [])).isEmpty) then
    (.err (error_response ("MISSING_JOB_INFO") ("Either job link or job description is required.") 422), 0)
  else if truthy (reqJobLink req) && !is_valid_url ((reqJobLink req).getD []) then
    (.err (error_response ("INVALID_JOB_LINK") ("Job link must be a valid URL") 422), 0)
  else if req.resumes.length > HR_BATCH_MAX_FILES then
    (.err (error_response ("TOO_MANY_FILES") ("Maximum 10 resumes allowed per batch.") 413), 0)
  else
    (.ok (batchItems env req) ("Batch analysis completed."),
     if batchDoScrape req then 1 else 0)

/-! Batch-route helper facts. -/

/-- The pre-loop validation of the batch route, as one predicate: job
title present, at least one resume, job info present, link valid when
present, and file count within the limit. -/
def batchFieldsOk (req : BatchRequest) : Bool :=
  truthy (reqJobTitle req) && !req.resumes.isEmpty &&
    ((truthy (reqJobLink req) && !(pyStrip ((reqJobLink req).getD [])).isEmpty) ||
     (truthy (reqJobDescription req) && !(pyStrip ((reqJobDescription req).getD [])).isEmpty)) &&
    !(truthy (reqJobLink req) && !is_valid_url ((reqJobLink req).getD [])) &&
    decide (req.resumes.length ≤ HR_BATCH_MAX_FILES)

theorem processBatchItem_name (env : BatchEnv) (jt : Str) (jd jl bjd hrf : Option Str)
    (hrq : Option (List Str)) (f : BatchFile) :
    (processBatchItem env jt jd jl bjd hrf hrq f).name = f.filename := by
  unfold processBatchItem
  cases f.readResult with
  | none => rfl
  | some contents =>
    dsimp only
    repeat' split
    all_goals rfl

/-- The value of the batch route when the pre-loop validation passes. -/
theorem analyze_resumes_batch_ok (env : BatchEnv) (req : BatchRequest)
    (h : batchFieldsOk req = true) :
    analyze_resumes_batch env req =
      (.ok (batchItems env req) ("Batch analysis completed."),
       if batchDoScrape req then 1 else 0) := by
  simp only [batchFieldsOk, Bool.and_eq_true, Bool.or_eq_true, Bool.not_eq_true',
    decide_eq_true_eq] at h
  obtain ⟨⟨⟨⟨ht, hr⟩, hinfo⟩, hlink⟩, hcount⟩ := h
  unfold analyze_resumes_batch
  simp only [ht, hr, hlink]
  have hinfo' : (!(truthy (reqJobLink req) && !(pyStrip ((reqJobLink req).getD [])).isEmpty) &&
      !(truthy (reqJobDescription req) && !(pyStrip ((reqJobDescription req).getD [])).isEmpty)) = false := by
    rcases hinfo with h1 | h2
    · simp [h1]
    · simp [h2]
  have hcount' : ¬ (req.resumes.length > HR_BATCH_MAX_FILES) := by omega
  simp only [ht, hr, Bool.not_true, Bool.false_eq_true, if_false, List.append_nil,
    List.isEmpty_nil, hinfo', hlink]
  rw [if_neg hcount']

/-- The value of the batch route when the pre-loop validation fails:
one of the four pre-loop error envelopes, and no scrape call. -/
theorem analyze_resumes_batch_err (env : BatchEnv) (req : BatchRequest)
    (h : batchFieldsOk req = false) :
    ∃ e, analyze_resumes_batch env req = (.err e, 0) ∧
      (e.code = "MISSING_FIELDS" ∨ e.code = "MISSING_JOB_INFO" ∨
       e.code = "INVALID_JOB_LINK" ∨ e.code = "TOO_MANY_FILES") := by
  by_cases h1 : truthy (reqJobTitle req) = true
  case neg =>
    rw [Bool.not_eq_true] at h1
    refine ⟨error_response ("MISSING_FIELDS") ("Required fields are missing") 422, ?_, Or.inl rfl⟩
    unfold analyze_resumes_batch
    simp [h1]
  case pos =>
  by_cases h2 : req.resumes.isEmpty = true
  case pos =>
    refine ⟨error_response ("MISSING_FIELDS") ("Required fields are missing") 422, ?_, Or.inl rfl⟩
    unfold analyze_resumes_batch
    simp [h2, List.isEmpty_iff, List.append_eq_nil]
  case neg =>
  rw [Bool.not_eq_true] at h2
  by_cases h3 : ((truthy (reqJobLink req) && !(pyStrip ((reqJobLink req).getD [])).isEmpty) ||
      (truthy (reqJobDescription req) && !(pyStrip ((reqJobDescription req).getD [])).isEmpty)) = true
  case neg =>
    rw [Bool.not_eq_true] at h3
    refine ⟨error_response ("MISSING_JOB_INFO") ("Either job link or job description is required.") 422,
      ?_, Or.inr (Or.inl rfl)⟩
    unfold analyze_resumes_batch
    rw [Bool.or_eq_false_iff] at h3
    simp [h1, h2, h3.1, h3.2]
  case pos =>
  by_cases h4 : (truthy (reqJobLink req) && !is_valid_url ((reqJobLink req).getD [])) = true
  case pos =>
    refine ⟨error_response ("INVALID_JOB_LINK") ("Job link must be a valid URL") 422,
      ?_, Or.inr (Or.inr (Or.inl rfl))⟩
    unfold analyze_resumes_batch
    have h3' : (!(truthy (reqJobLink req) && !(pyStrip ((reqJobLink req).getD [])).isEmpty) &&
        !(truthy (reqJobDescription req) && !(pyStrip ((reqJobDescription req).getD [])).isEmpty)) = false := by
      rcases (Bool.or_eq_true_iff.mp h3) with ha | ha
      · simp [ha]
      · simp [ha]
    simp [h1, h2, h3', h4]
    intro hc1 hc2
    exfalso
    rcases Bool.or_eq_true_iff.mp h3 with hA | hA
    · rw [Bool.and_eq_true] at hA
      obtain ⟨ha, hb⟩ := hA
      rcases hc1 with hc | hc
      · simp [ha] at hc
      · simp [hc] at hb
    · rw [Bool.and_eq_true] at hA
      obtain ⟨ha, hb⟩ := hA
      rcases hc2 with hc | hc
      · simp [ha] at hc
      · simp [hc] at hb
  case neg =>
  rw [Bool.not_eq_true] at h4
  by_cases h5 : req.resumes.length > HR_BATCH_MAX_FILES
  case pos =>
    refine ⟨error_response ("TOO_MANY_FILES") ("Maximum 10 resumes allowed per batch.") 413,
      ?_, Or.inr (Or.inr (Or.inr rfl))⟩
    unfold analyze_resumes_batch
    have h3' : (!(truthy (reqJobLink req) && !(pyStrip ((reqJobLink req).getD [])).isEmpty) &&
        !(truthy (reqJobDescription req) && !(pyStrip ((reqJobDescription req).getD [])).isEmpty)) = false := by
      rcases (Bool.or_eq_true_iff.mp h3) with ha | ha
      · simp [ha]
      · simp [ha]
    simp [h1, h2, h3', h4, h5]
    intro hc1 hc2
    exfalso
    rcases Bool.or_eq_true_iff.mp h3 with hA | hA
    · rw [Bool.and_eq_true] at hA
      obtain ⟨ha, hb⟩ := hA
      rcases hc1 with hc | hc
      · simp [ha] at hc
      · simp [hc] at hb
    · rw [Bool.and_eq_true] at hA
      obtain ⟨ha, hb⟩ := hA
      rcases hc2 with hc | hc
      · simp [ha] at hc
      · simp [hc] at hb
  case neg =>
    exfalso
    rw [batchFieldsOk] at h
    simp [h1, h2, h3, h4, HR_BATCH_MAX_FILES] at h h5
    omega

theorem batchItems_names (env : BatchEnv) (req : BatchRequest) :
    (batchItems env req).map BatchItem.name = req.resumes.map BatchFile.filename := by
  unfold batchItems
  rw [List.map_map]
  induction req.resumes with
  | nil => rfl
  | cons a t ih => simp [processBatchItem_name, ih]

/-! Shared concrete fixtures for witnesses. -/

def wFile1 : BatchFile := ⟨some ("a.pdf".toList), some "application/pdf", some ("%PDF-1.4 data".toList)⟩
def wFile2 : BatchFile := ⟨some ("b.txt".toList), some "text/plain", some ("hello".toList)⟩
def wFile3 : BatchFile := ⟨some ("c.pdf".toList), some "application/pdf", none⟩
def wScrapeEnv : ScrapeEnv := ⟨none, fun _ => none, fun _ => none⟩
def wBatchEnv : BatchEnv :=
  ⟨wScrapeEnv, fun _ => ("resume text".toList), fun _ => none, fun _ => .error "boom", fun _ => none⟩
def wBatchReq : BatchRequest :=
  ⟨[wFile1, wFile2, wFile3], some ("Backend Engineer".toList), none, none, none,
   some ("https://example.com/job".toList), none, none, none, none, none⟩
def wBadReq : BatchRequest :=
  ⟨[wFile1], none, none, none, none, some ("https://example.com/job".toList), none, none, none, none, none⟩

/-- C1: for every batch request that passes the pre-loop validation and
carries a job link, the scrape call count is 1 exactly when the provided
description is absent or under 200 characters after stripping, 0 when
the description is 200 characters or longer; the count does not depend
on the uploaded file list; and the success payload maps every item over
the one shared cached JD value. -/
theorem batch_scrape_once_shared (env : BatchEnv) (req : BatchRequest)
    (hok : batchFieldsOk req = true) (hlink : truthy (reqJobLink req) = true) :
    ((!truthy (reqJobDescription req) ||
        (pyStrip ((reqJobDescription req).getD [])).length < 200) = true →
      (analyze_resumes_batch env req).2 = 1) ∧
    (truthy (reqJobDescription req) = true →
      200 ≤ (pyStrip ((reqJobDescription req).getD [])).length →
      (analyze_resumes_batch env req).2 = 0) ∧
    (∀ rs : List BatchFile, batchFieldsOk { req with resumes := rs } = true →
      (analyze_resumes_batch env { req with resumes := rs }).2 =
        (analyze_resumes_batch env req).2) ∧
    (analyze_resumes_batch env req).1 =
      .ok (req.resumes.map (processBatchItem env ((reqJobTitle req).getD [])
        (reqJobDescription req) (reqJobLink req) (batchCachedJD env req) (reqHrFocus req)
        (reqHrQuestions env req))) ("Batch analysis completed.") := by
  have hA := analyze_resumes_batch_ok env req hok
  refine ⟨?_, ?_, ?_, ?_⟩
  · intro hcond
    rw [hA]
    simp [batchDoScrape, hlink, hcond]
  · intro h1 h2
    rw [hA]
    have hds : batchDoScrape req = false := by
      simp [batchDoScrape, h1]
      omega
    simp [hds]
  · intro rs hok2
    rw [analyze_resumes_batch_ok env _ hok2, hA]
    rfl
  · rw [hA]
    rfl

/-- C1 witness: a concrete one-file batch with a link and no provided
description performs exactly one scrape call. -/
theorem batch_scrape_once_shared_witness :
    batchFieldsOk wBatchReq = true ∧ truthy (reqJobLink wBatchReq) = true ∧
    (analyze_resumes_batch wBatchEnv wBatchReq).2 = 1 :=
  ⟨by decide, by decide,
   (batch_scrape_once_shared wBatchEnv wBatchReq (by decide) (by decide)).1 (by decide)⟩

/-- C2: for every batch request that passes the pre-loop validation,
the returned results list has exactly one entry per uploaded file, in
upload order (entry names align positionally with the upload
filenames), for every behavior of the read/extraction/analysis
effects. -/
theorem batch_one_result_per_file_in_order (env : BatchEnv) (req : BatchRequest)
    (h : batchFieldsOk req = true) :
    (analyze_resumes_batch env req).1 = .ok (batchItems env req) ("Batch analysis completed.") ∧
    (batchItems env req).length = req.resumes.length ∧
    (batchItems env req).map BatchItem.name = req.resumes.map BatchFile.filename := by
  refine ⟨?_, ?_, batchItems_names env req⟩
  · rw [analyze_resumes_batch_ok env req h]
  · simp [batchItems]

/-- C2 witness: a three-file batch in which the first file is a readable
PDF whose analysis raises, the second has a wrong MIME type and the
third has a failing read still yields three entries in upload order. -/
theorem batch_one_result_per_file_in_order_witness :
    batchFieldsOk wBatchReq = true ∧
    (batchItems wBatchEnv wBatchReq).length = wBatchReq.resumes.length ∧
    (batchItems wBatchEnv wBatchReq).map BatchItem.name =
      wBatchReq.resumes.map BatchFile.filename :=
  ⟨by decide, (batch_one_result_per_file_in_order wBatchEnv wBatchReq (by decide)).2.1,
   (batch_one_result_per_file_in_order wBatchEnv wBatchReq (by decide)).2.2⟩

/-- C3: for every batch request and every oracle behavior, the endpoint
returns the transport-level success payload whenever the pre-loop
validation passes (even when every item entry fails), and an error
envelope appears exactly when a pre-loop check fails, carrying one of
the four pre-loop error codes. -/
theorem batch_success_unless_preloop (env : BatchEnv) (req : BatchRequest) :
    (batchFieldsOk req = true →
      analyze_resumes_batch env req =
        (.ok (batchItems env req) ("Batch analysis completed."),
         if batchDoScrape req then 1 else 0)) ∧
    (batchFieldsOk req = false →
      ∃ e, analyze_resumes_batch env req = (.err e, 0) ∧
        (e.code = "MISSING_FIELDS" ∨ e.code = "MISSING_JOB_INFO" ∨
         e.code = "INVALID_JOB_LINK" ∨ e.code = "TOO_MANY_FILES")) :=
  ⟨analyze_resumes_batch_ok env req, analyze_resumes_batch_err env req⟩

/-- C3 witness: with every per-item effect failing the batch call still
succeeds at the transport level, and a request with a missing job title
gets a pre-loop error envelope. -/
theorem batch_success_unless_preloop_witness :
    (batchFieldsOk wBatchReq = true ∧
      analyze_resumes_batch wBatchEnv wBatchReq =
        (.ok (batchItems wBatchEnv wBatchReq) ("Batch analysis completed."),
         if batchDoScrape wBatchReq then 1 else 0)) ∧
    (batchFieldsOk wBadReq = false ∧
      ∃ e, analyze_resumes_batch wBatchEnv wBadReq = (.err e, 0) ∧
        (e.code = "MISSING_FIELDS" ∨ e.code = "MISSING_JOB_INFO" ∨
         e.code = "INVALID_JOB_LINK" ∨ e.code = "TOO_MANY_FILES")) :=
  ⟨⟨by decide, (batch_success_unless_preloop wBatchEnv wBatchReq).1 (by decide)⟩,
   ⟨by decide, (batch_success_unless_preloop wBatchEnv wBadReq).2 (by decide)⟩⟩

/-! Fixtures for the JD-plausibility claim. -/

def s50 : Str := List.replicate 50 'a'
def s49 : Str := List.replicate 49 'a'
def c7ScrapeEnv50 : ScrapeEnv :=
  ⟨some ("key".toList), fun _ => some (fun k => if k = ("markdown".toList) then some (.str s50) else none),
   fun _ => none⟩
def c7ScrapeEnv49 : ScrapeEnv :=
  ⟨some ("key".toList), fun _ => some (fun k => if k = ("markdown".toList) then some (.str s49) else none),
   fun _ => none⟩
def c7Env50 : BatchEnv :=
  ⟨c7ScrapeEnv50, fun _ => ("resume".toList), fun _ => none,
   fun inp => .ok (inp.job_description_text.getD []), fun _ => none⟩
def c7Env49 : BatchEnv :=
  ⟨c7ScrapeEnv49, fun _ => ("resume".toList), fun _ => none,
   fun inp => .ok (inp.job_description_text.getD []), fun _ => none⟩
def c7Req : BatchRequest :=
  ⟨[wFile1], some ("T".toList), none, none, none,
   some ("https://example.com/j".toList), none, none, none, none, none⟩

/-- C7 counterexample: a successfully scraped JD of length exactly 50 —
which does not exceed the 50-character minimum — is accepted as the
batch cache rather than discarded. -/
theorem batch_jd_exactly_50_accepted :
    scrape_job_description c7ScrapeEnv50 ((reqJobLink c7Req).getD []) = some s50 ∧
    s50.length = 50 ∧
    batchCachedJD c7Env50 c7Req = some s50 := by
  refine ⟨by decide, by decide, by decide⟩

/-- C7 (amended): in the batch pipeline a scraped JD is accepted as the
cached context exactly when its length is at least 50 characters; a
truthy scraped result shorter than 50 characters is discarded (the
cache becomes `none`), and with an empty cache the assembled agent
inputs fall back to the provided description and URL. -/
theorem batch_jd_plausibility_cutoff (env : BatchEnv) (req : BatchRequest) (s : Str)
    (hdo : batchDoScrape req = true)
    (hs : scrape_job_description env.scrapeEnv ((reqJobLink req).getD []) = some s) :
    (s ≠ [] → s.length < 50 → batchCachedJD env req = none) ∧
    (50 ≤ s.length → batchCachedJD env req = some s) ∧
    (∀ text jt hrf hrq,
      (batchAgentInputs text jt (reqJobDescription req) (reqJobLink req) none hrf hrq).job_description_text =
        reqJobDescription req ∧
      (batchAgentInputs text jt (reqJobDescription req) (reqJobLink req) none hrf hrq).job_description_url =
        reqJobLink req) := by
  refine ⟨?_, ?_, ?_⟩
  · intro hne hlt
    unfold batchCachedJD
    rw [hdo]
    simp only [if_true, hs]
    have ht : truthy (some s) = true := by
      simp [truthy, List.isEmpty_iff, hne]
    simp [ht, hlt]
  · intro hge
    unfold batchCachedJD
    rw [hdo]
    simp only [if_true, hs]
    have : ¬ (s.length < 50) := by omega
    simp [this]
  · intro text jt hrf hrq
    refine ⟨?_, ?_⟩
    · simp [batchAgentInputs, pyOr, truthy]
    · simp [batchAgentInputs, truthy]

/-- C7 witness: a scraped JD of 49 characters is discarded, the cache
is empty, and the agent inputs for any item fall back to the provided
description and URL. -/
theorem batch_jd_plausibility_cutoff_witness :
    batchDoScrape c7Req = true ∧
    scrape_job_description c7ScrapeEnv49 ((reqJobLink c7Req).getD []) = some s49 ∧
    batchCachedJD c7Env49 c7Req = none :=
  ⟨by decide, by decide,
   (batch_jd_plausibility_cutoff c7Env49 c7Req s49 (by decide) (by decide)).1
     (by decide) (by decide)⟩

/-! Individual-route helper facts. -/

theorem is_valid_pdf_eq_true {m : Option String} {c : Bytes} (h : is_valid_pdf m c = true) :
    m = some "application/pdf" ∧ ("%PDF".toList).isPrefixOf c = true := by
  unfold is_valid_pdf at h
  by_cases hm : m = some "application/pdf"
  · exact ⟨hm, by simpa [hm] using h⟩
  · simp [hm] at h

theorem validate_required_cases (jt : Option Str) :
    _validate_required jt = none ∨
    _validate_required jt =
      some (error_response ("MISSING_FIELDS") ("Required fields are missing") 422) := by
  unfold _validate_required
  by_cases h : (!truthy jt) = true <;> simp [h]

theorem validate_job_link_cases (jl : Option Str) :
    _validate_job_link jl = none ∨
    _validate_job_link jl =
      some (error_response ("INVALID_JOB_LINK") ("Job link must be a valid URL") 422) := by
  unfold _validate_job_link
  by_cases h : (truthy jl && !is_valid_url (jl.getD [])) = true <;> simp [h]

theorem validate_pdf_cases (c : Bytes) (m : Option String) :
    _validate_pdf_file c m = none ∨
    _validate_pdf_file c m =
      some (error_response ("FILE_TOO_LARGE") ("File size exceeds 10MB limit") 413) ∨
    _validate_pdf_file c m =
      some (error_response ("INVALID_FILE_TYPE") ("Only PDF files are allowed") 415) ∨
    _validate_pdf_file c m =
      some (error_response ("CORRUPTED_PDF") ("PDF file appears to be corrupted") 400) := by
  unfold _validate_pdf_file
  dsimp only
  by_cases h1 : c.length > MAX_FILE_SIZE_BYTES
  · rw [if_pos h1]
    right; left; rfl
  · rw [if_neg h1]
    by_cases h2 : (!is_valid_pdf m c) = true
    · rw [if_pos h2]
      right; right; left; rfl
    · rw [if_neg h2]
      by_cases h3 : (!(("%PDF".toList).isPrefixOf c) || decide (c.length < 5)) = true
      · rw [if_pos h3]
        right; right; right; rfl
      · rw [if_neg h3]
        left; rfl

/-- C10: in `_validate_pdf_file` the CORRUPTED_PDF envelope is produced
exactly when the declared MIME type is `application/pdf` and the
payload is the bare 4-byte signature `%PDF`; in particular any payload
of at least 5 bytes never gets CORRUPTED_PDF. -/
theorem corrupted_pdf_iff_bare_signature (contents : Bytes) (mime : Option String) :
    (_validate_pdf_file contents mime =
        some (error_response ("CORRUPTED_PDF") ("PDF file appears to be corrupted") 400) ↔
      (mime = some "application/pdf" ∧ contents = ("%PDF".toList))) ∧
    (5 ≤ contents.length →
      _validate_pdf_file contents mime ≠
        some (error_response ("CORRUPTED_PDF") ("PDF file appears to be corrupted") 400)) := by
  have main : _validate_pdf_file contents mime =
      some (error_response ("CORRUPTED_PDF") ("PDF file appears to be corrupted") 400) ↔
      (mime = some "application/pdf" ∧ contents = ("%PDF".toList)) := by
    constructor
    · intro h
      unfold _validate_pdf_file at h
      by_cases h1 : contents.length > MAX_FILE_SIZE_BYTES
      · simp [h1, error_response] at h
      · rw [if_neg h1] at h
        by_cases h2 : is_valid_pdf mime contents = true
        · obtain ⟨hm, hp⟩ := is_valid_pdf_eq_true h2
          rw [h2] at h
          simp only [Bool.not_true, Bool.false_eq_true, if_false] at h
          rw [hp] at h
          simp only [Bool.not_true, Bool.false_or] at h
          by_cases h3 : contents.length < 5
          · refine ⟨hm, ?_⟩
            obtain ⟨t, ht⟩ := (List.isPrefixOf_iff_prefix.mp hp)
            have hlen : (("%PDF".toList) ++ t).length = contents.length := by rw [ht]
            simp only [List.length_append] at hlen
            have htnil : t = [] := by
              have : ("%PDF".toList).length = 4 := by decide
              rw [this] at hlen
              have : t.length = 0 := by omega
              exact List.length_eq_zero.mp this
            rw [htnil] at ht
            simpa using ht.symm
          · simp [h3] at h
        · rw [Bool.not_eq_true] at h2
          simp [h2, error_response] at h
    · rintro ⟨hm, hc⟩
      subst hm hc
      decide
  refine ⟨main, ?_⟩
  intro h5 hcp
  obtain ⟨hm, hc⟩ := main.mp hcp
  rw [hc] at h5
  simp at h5

/-- C10 witness: a five-byte signature-valid PDF payload with the
correct MIME type does not get CORRUPTED_PDF. -/
theorem corrupted_pdf_iff_bare_signature_witness :
    5 ≤ ("%PDFx".toList).length ∧
    _validate_pdf_file ("%PDFx".toList) (some "application/pdf") ≠
      some (error_response ("CORRUPTED_PDF") ("PDF file appears to be corrupted") 400) :=
  ⟨by decide,
   (corrupted_pdf_iff_bare_signature ("%PDFx".toList) (some "application/pdf")).2 (by decide)⟩

/-! Fixtures for the individual route. -/

def tefEnv : IndivEnv :=
  ⟨some ("%PDF-1.4 x".toList), fun _ => [], fun _ => none, fun _ => .ok ("ok".toList)⟩
def tefReq : IndivRequest :=
  ⟨some "application/pdf", some ("Backend Engineer".toList), none, none, none, none, none⟩
def cpdfEnv : IndivEnv :=
  ⟨some ("%PDF".toList), fun _ => [], fun _ => none, fun _ => .ok ("ok".toList)⟩

/-- C9 counterexample: a signature-only PDF upload gets the
CORRUPTED_PDF envelope with HTTP status 400, not the 422 the claim
assigns to CORRUPTED_PDF. -/
theorem corrupted_pdf_carries_status_400 :
    analyze_resume cpdfEnv tefReq =
      .err (error_response ("CORRUPTED_PDF") ("PDF file appears to be corrupted") 400) ∧
    (400 : Nat) ≠ 422 :=
  ⟨by decide, by decide⟩

/-- C9 (amended): every error envelope of the single-item endpoint
pairs its code with a fixed status — 422 for MISSING_FIELDS,
INVALID_JOB_LINK and TEXT_EXTRACTION_FAILED, 400 for CORRUPTED_PDF,
413 for FILE_TOO_LARGE, 415 for INVALID_FILE_TYPE, 502 for
ANALYSIS_FAILED, 500 for INTERNAL_ERROR — and a signature-valid PDF
with no extractable text and no OCR yields TEXT_EXTRACTION_FAILED with
status 422. -/
theorem analyze_resume_status_mapping :
    (∀ (env : IndivEnv) (req : IndivRequest) (e : ErrResp),
      analyze_resume env req = .err e →
      (e.code, e.statusCode) ∈
        ([("MISSING_FIELDS", 422), ("INVALID_JOB_LINK", 422), ("INTERNAL_ERROR", 500),
          ("FILE_TOO_LARGE", 413), ("INVALID_FILE_TYPE", 415), ("CORRUPTED_PDF", 400),
          ("TEXT_EXTRACTION_FAILED", 422), ("ANALYSIS_FAILED", 502)] : List (String × Nat))) ∧
    analyze_resume tefEnv tefReq =
      .err (error_response ("TEXT_EXTRACTION_FAILED") ("Could not extract text from PDF") 422) := by
  refine ⟨?_, by decide⟩
  intro env req e h
  simp only [analyze_resume] at h
  rcases validate_required_cases (pyOr req.jobTitleCamel req.jobTitleSnake) with h1 | h1
  · rw [h1] at h
    rcases validate_job_link_cases (pyOr req.jobLinkCamel req.jobLinkSnake) with h2 | h2
    · rw [h2] at h
      cases hread : env.readResult with
      | none =>
        rw [hread] at h
        dsimp only at h
        injection h with h'
        rw [← h']
        decide
      | some contents =>
        rw [hread] at h
        dsimp only at h
        rcases validate_pdf_cases contents req.contentType with h3 | h3 | h3 | h3
        · rw [h3] at h
          dsimp only at h
          repeat' split at h
          all_goals
            first
            | (injection h with h'
               rw [← h']
               decide)
            | injection h
        · rw [h3] at h
          dsimp only at h
          injection h with h'
          rw [← h']
          decide
        · rw [h3] at h
          dsimp only at h
          injection h with h'
          rw [← h']
          decide
        · rw [h3] at h
          dsimp only at h
          injection h with h'
          rw [← h']
          decide
    · rw [h2] at h
      dsimp only at h
      injection h with h'
      rw [← h']
      decide
  · rw [h1] at h
    dsimp only at h
    injection h with h'
    rw [← h']
    decide


/-- Oracle fixture whose read yields a non-PDF payload. -/
def iftEnv : IndivEnv :=
  ⟨some ("hello".toList), fun _ => [], fun _ => none, fun _ => .ok ("ok".toList)⟩

/-- C9 witness: the INVALID_FILE_TYPE envelope produced for a non-PDF
upload carries the 415 status from the fixed mapping. -/
theorem analyze_resume_status_mapping_witness :
    analyze_resume iftEnv tefReq =
      .err (error_response ("INVALID_FILE_TYPE") ("Only PDF files are allowed") 415) ∧
    (("INVALID_FILE_TYPE", (415 : Nat)) ∈
      ([("MISSING_FIELDS", 422), ("INVALID_JOB_LINK", 422), ("INTERNAL_ERROR", 500),
        ("FILE_TOO_LARGE", 413), ("INVALID_FILE_TYPE", 415), ("CORRUPTED_PDF", 400),
        ("TEXT_EXTRACTION_FAILED", 422), ("ANALYSIS_FAILED", 502)] : List (String × Nat))) :=
  ⟨by decide,
   analyze_resume_status_mapping.1 iftEnv tefReq
     (error_response ("INVALID_FILE_TYPE") ("Only PDF files are allowed") 415) (by decide)⟩

/-! Fixtures for the oversized-payload counterexample. -/

def bigBytes : Bytes := List.replicate (MAX_FILE_SIZE_BYTES + 1) 'x'
def bigEnv : IndivEnv := ⟨some bigBytes, fun _ => [], fun _ => none, fun _ => .ok ("ok".toList)⟩
def plainReq : IndivRequest := ⟨some "text/plain", some ("T".toList), none, none, none, none, none⟩

/-- The value of the individual route when the PDF validation produces
an error envelope. -/
theorem analyze_resume_err_of_pdf (env : IndivEnv) (req : IndivRequest) (contents : Bytes)
    (E : ErrResp)
    (h1 : _validate_required (pyOr req.jobTitleCamel req.jobTitleSnake) = none)
    (h2 : _validate_job_link (pyOr req.jobLinkCamel req.jobLinkSnake) = none)
    (h3 : env.readResult = some contents)
    (h4 : _validate_pdf_file contents req.contentType = some E) :
    analyze_resume env req = .err E := by
  simp only [analyze_resume]
  rw [h1, h2, h3]
  dsimp only
  rw [h4]

/-- C5 counterexample: a single-item request whose payload does not
start with `%PDF` but exceeds the 10MB ceiling is answered with
FILE_TOO_LARGE — neither INVALID_FILE_TYPE nor CORRUPTED_PDF — because
the size check runs before the type/signature check. -/
theorem oversize_nonpdf_gets_file_too_large :
    analyze_resume bigEnv plainReq =
      .err (error_response ("FILE_TOO_LARGE") ("File size exceeds 10MB limit") 413) ∧
    ("%PDF".toList).isPrefixOf bigBytes = false ∧
    "FILE_TOO_LARGE" ≠ "INVALID_FILE_TYPE" ∧ "FILE_TOO_LARGE" ≠ "CORRUPTED_PDF" := by
  refine ⟨?_, ?_, by decide, by decide⟩
  · have hlen : bigBytes.length = MAX_FILE_SIZE_BYTES + 1 := by
      unfold bigBytes
      exact List.length_replicate _ _
    refine analyze_resume_err_of_pdf bigEnv plainReq bigBytes _ (by decide) (by decide) rfl ?_
    unfold _validate_pdf_file
    dsimp only
    rw [if_pos (by rw [hlen]; omega)]
  · unfold bigBytes
    rw [List.replicate_succ]
    show (('%' == 'x') &&
      (("PDF".toList).isPrefixOf (List.replicate MAX_FILE_SIZE_BYTES 'x'))) = false
    rw [show ('%' == 'x') = false from rfl, Bool.false_and]

/-- C5 (amended): for every single-item request that passes the
required-field and job-link checks and whose file read succeeds, a
payload that does not start with `%PDF` or whose declared MIME type is
not `application/pdf` is answered with INVALID_FILE_TYPE,
CORRUPTED_PDF, or FILE_TOO_LARGE — never TEXT_EXTRACTION_FAILED — so
text extraction is reached only on signature-valid PDFs. -/
theorem invalid_payload_never_extraction_error (env : IndivEnv) (req : IndivRequest)
    (contents : Bytes)
    (htitle : truthy (pyOr req.jobTitleCamel req.jobTitleSnake) = true)
    (hlink : _validate_job_link (pyOr req.jobLinkCamel req.jobLinkSnake) = none)
    (hread : env.readResult = some contents)
    (hbad : ¬(("%PDF".toList).isPrefixOf contents = true ∧
              req.contentType = some "application/pdf")) :
    ∃ e, analyze_resume env req = .err e ∧
      (e.code = "INVALID_FILE_TYPE" ∨ e.code = "CORRUPTED_PDF" ∨ e.code = "FILE_TOO_LARGE") ∧
      e.code ≠ "TEXT_EXTRACTION_FAILED" := by
  have hreq : _validate_required (pyOr req.jobTitleCamel req.jobTitleSnake) = none := by
    unfold _validate_required
    simp [htitle]
  have hvalid : is_valid_pdf req.contentType contents = false := by
    unfold is_valid_pdf
    by_cases hm : req.contentType = some "application/pdf"
    · simp only [hm, if_pos rfl]
      rcases hpre : ("%PDF".toList).isPrefixOf contents with _ | _
      · rfl
      · exact absurd ⟨hpre, hm⟩ hbad
    · simp [hm]
  simp only [analyze_resume]
  rw [hreq, hlink, hread]
  dsimp only
  by_cases hsz : contents.length > MAX_FILE_SIZE_BYTES
  · refine ⟨error_response ("FILE_TOO_LARGE") ("File size exceeds 10MB limit") 413, ?_,
      Or.inr (Or.inr rfl), by decide⟩
    have h4 : _validate_pdf_file contents req.contentType =
        some (error_response ("FILE_TOO_LARGE") ("File size exceeds 10MB limit") 413) := by
      unfold _validate_pdf_file
      dsimp only
      rw [if_pos hsz]
    rw [h4]
  · refine ⟨error_response ("INVALID_FILE_TYPE") ("Only PDF files are allowed") 415, ?_,
      Or.inl rfl, by decide⟩
    have h4 : _validate_pdf_file contents req.contentType =
        some (error_response ("INVALID_FILE_TYPE") ("Only PDF files are allowed") 415) := by
      unfold _validate_pdf_file
      dsimp only
      rw [if_neg hsz, hvalid]
      rfl
    rw [h4]

/-- C5 witness: a small non-PDF payload with a present job title yields
INVALID_FILE_TYPE, not TEXT_EXTRACTION_FAILED. -/
theorem invalid_payload_never_extraction_error_witness :
    truthy (pyOr plainReq.jobTitleCamel plainReq.jobTitleSnake) = true ∧
    ∃ e, analyze_resume iftEnv plainReq = .err e ∧
      (e.code = "INVALID_FILE_TYPE" ∨ e.code = "CORRUPTED_PDF" ∨ e.code = "FILE_TOO_LARGE") ∧
      e.code ≠ "TEXT_EXTRACTION_FAILED" :=
  ⟨by decide,
   invalid_payload_never_extraction_error iftEnv plainReq ("hello".toList)
     (by decide) (by decide) rfl (by decide)⟩

theorem runPatterns_le : ∀ (ps : List (Str → Option Nat)) (t : Str) (v : Nat),
    runPatterns ps t = some v → v ≤ 100 := by
  intro ps
  induction ps with
  | nil =>
    intro t v h
    simp [runPatterns] at h
  | cons p ps ih =>
    intro t v h
    unfold runPatterns at h
    cases hs : searchFrom p t with
    | none =>
      rw [hs] at h
      exact ih t v h
    | some w =>
      rw [hs] at h
      dsimp only at h
      by_cases hw : w ≤ 100
      · rw [if_pos hw] at h
        injection h with h'
        omega
      · rw [if_neg hw] at h
        exact ih t v h

/-- C4: the score parser returns only values in `[0, 100]` (or none,
never an error — the model is a total function); on non-empty input it
is exactly the whitespace-collapse followed by the three patterns in
priority order, each contributing its leftmost match and rejected when
out of range; the two scenario inputs parse to 87 and to none
respectively (150 is rejected, not clamped). -/
theorem parse_score_range_and_scenarios :
    (∀ (md : Option Str) (v : Nat), parse_score_from_markdown md = some v → v ≤ 100) ∧
    (∀ s : Str, s.isEmpty = false →
      parse_score_from_markdown (some s) =
        runPatterns [matchPat1, matchPat2, matchPat3] (joinSpace (pySplit s))) ∧
    parse_score_from_markdown (some ("## Overall Match Score: 87%".toList)) = some 87 ∧
    parse_score_from_markdown (some ("Score was great, around 150%".toList)) = none := by
  refine ⟨?_, ?_, by decide, by decide⟩
  · intro md v h
    unfold parse_score_from_markdown at h
    cases md with
    | none => cases h
    | some s =>
      dsimp only at h
      by_cases he : s.isEmpty = true
      · rw [if_pos he] at h
        cases h
      · rw [if_neg he] at h
        exact runPatterns_le _ _ _ h
  · intro s he
    unfold parse_score_from_markdown
    dsimp only
    rw [he]
    simp

/-- C4 witness: the scenario report parses to 87, which the range
theorem bounds by 100, and the non-empty input is processed by the
ordered pattern chain. -/
theorem parse_score_range_and_scenarios_witness :
    (parse_score_from_markdown (some ("## Overall Match Score: 87%".toList)) = some 87 ∧
      87 ≤ 100) ∧
    parse_score_from_markdown (some ("## Overall Match Score: 87%".toList)) =
      runPatterns [matchPat1, matchPat2, matchPat3]
        (joinSpace (pySplit ("## Overall Match Score: 87%".toList))) :=
  ⟨⟨by decide,
    parse_score_range_and_scenarios.1 (some ("## Overall Match Score: 87%".toList)) 87 (by decide)⟩,
   parse_score_range_and_scenarios.2.1 ("## Overall Match Score: 87%".toList) (by decide)⟩

/-! Facts about stripping and truncation, for the scrape bounds. -/

theorem dropWhile_head_not (p : Char → Bool) :
    ∀ (l : Str) (c : Char) (t : Str), l.dropWhile p = c :: t → p c = false := by
  intro l
  induction l with
  | nil =>
    intro c t h
    simp [List.dropWhile] at h
  | cons a as ih =>
    intro c t h
    by_cases hp : p a = true
    · rw [List.dropWhile_cons_of_pos hp] at h
      exact ih c t h
    · rw [List.dropWhile_cons_of_neg hp] at h
      cases h
      rwa [Bool.not_eq_true] at hp

theorem dropWhile_head?_not (p : Char → Bool) (l : Str) (c : Char)
    (h : (l.dropWhile p).head? = some c) : p c = false := by
  cases hd : l.dropWhile p with
  | nil => rw [hd] at h; cases h
  | cons x t =>
    rw [hd] at h
    injection h with h'
    subst h'
    exact dropWhile_head_not p l x t hd

theorem pyStrip_isPrefix (s : Str) : pyStrip s <+: s.dropWhile isPySpace := by
  unfold pyStrip
  rw [← List.reverse_suffix]
  simp only [List.reverse_reverse]
  exact List.dropWhile_suffix isPySpace

theorem pyStrip_head (s : Str) (c : Char) (h : (pyStrip s).head? = some c) :
    isPySpace c = false := by
  obtain ⟨t, ht⟩ := pyStrip_isPrefix s
  cases hp : pyStrip s with
  | nil => rw [hp] at h; cases h
  | cons x r =>
    rw [hp] at h
    injection h with h'
    rw [← h']
    rw [hp] at ht
    refine dropWhile_head_not isPySpace s x (r ++ t) ?_
    rw [← ht]
    rfl

theorem pyStrip_last (s : Str) (c : Char) (h : (pyStrip s).getLast? = some c) :
    isPySpace c = false := by
  unfold pyStrip at h
  rw [List.getLast?_reverse] at h
  exact dropWhile_head?_not isPySpace _ c h

theorem take_head? (n : Nat) (l : Str) (hn : 0 < n) : (l.take n).head? = l.head? := by
  cases l with
  | nil => simp
  | cons a t =>
    cases n with
    | zero => omega
    | succ m => simp [List.take]

/-- Length bound, leading-whitespace freedom, and (below the
truncation point) trailing-whitespace freedom of `_tidy_text`. -/
theorem tidy_bounds (t : Str) :
    (_tidy_text t).length ≤ 15000 ∧
    (∀ c, (_tidy_text t).head? = some c → isPySpace c = false) ∧
    ((_tidy_text t).length < 15000 →
      ∀ c, (_tidy_text t).getLast? = some c → isPySpace c = false) := by
  unfold _tidy_text
  dsimp only
  by_cases hl : (pyStrip t).length > 15000
  · rw [if_pos hl]
    refine ⟨?_, ?_, ?_⟩
    · rw [List.length_take]
      omega
    · intro c hc
      rw [take_head? 15000 _ (by omega)] at hc
      exact pyStrip_head t c hc
    · intro hlt
      rw [List.length_take] at hlt
      omega
  · rw [if_neg hl]
    exact ⟨by omega, fun c hc => pyStrip_head t c hc,
      fun _ c hc => pyStrip_last t c hc⟩

theorem firstKeyResult_tidy (d : Str → Option FireVal) :
    ∀ (ks : List Str) (s : Str), firstKeyResult d ks = some s → ∃ t, s = _tidy_text t := by
  intro ks
  induction ks with
  | nil =>
    intro s h
    simp [firstKeyResult] at h
  | cons k ks ih =>
    intro s h
    unfold firstKeyResult at h
    cases hd : d k with
    | none =>
      rw [hd] at h
      dsimp only at h
      exact ih s h
    | some v =>
      rw [hd] at h
      dsimp only at h
      by_cases ht : fireTruthy v = true
      · rw [if_pos ht] at h
        cases v with
        | str val =>
          dsimp only at h
          by_cases hsub : (hasSub ("<".toList) val && hasSub ("</".toList) val) = true
          · rw [if_pos hsub] at h
            injection h with h'
            exact ⟨_, h'.symm⟩
          · rw [if_neg hsub] at h
            injection h with h'
            exact ⟨_, h'.symm⟩
        | nonStr b =>
          dsimp only at h
          exact ih s h
      · rw [if_neg ht] at h
        exact ih s h

theorem scrape_some_is_tidy (env : ScrapeEnv) (url : Str) (s : Str)
    (h : scrape_job_description env url = some s) : ∃ t, s = _tidy_text t := by
  unfold scrape_job_description at h
  by_cases hu : url.isEmpty = true
  · rw [if_pos hu] at h
    cases h
  · rw [if_neg hu] at h
    dsimp only at h
    cases hk : env.apiKey with
    | none =>
      rw [hk] at h
      dsimp only at h
      cases hf : env.urlFetch url with
      | none => rw [hf] at h; cases h
      | some html =>
        rw [hf] at h
        injection h with h'
        exact ⟨_, h'.symm⟩
    | some key =>
      rw [hk] at h
      dsimp only at h
      by_cases hke : key.isEmpty = true
      · rw [if_pos hke] at h
        dsimp only at h
        cases hf : env.urlFetch url with
        | none => rw [hf] at h; cases h
        | some html =>
          rw [hf] at h
          injection h with h'
          exact ⟨_, h'.symm⟩
      · rw [if_neg hke] at h
        cases hfc : env.firecrawl url with
        | none =>
          rw [hfc] at h
          dsimp only at h
          cases hf : env.urlFetch url with
          | none => rw [hf] at h; cases h
          | some html =>
            rw [hf] at h
            injection h with h'
            exact ⟨_, h'.symm⟩
        | some d =>
          rw [hfc] at h
          dsimp only at h
          cases hkr : firstKeyResult d fireKeys with
          | none =>
            rw [hkr] at h
            dsimp only at h
            cases hf : env.urlFetch url with
            | none => rw [hf] at h; cases h
            | some html =>
              rw [hf] at h
              injection h with h'
              exact ⟨_, h'.symm⟩
          | some v =>
            rw [hkr] at h
            dsimp only at h
            injection h with h'
            subst h'
            exact firstKeyResult_tidy d fireKeys v hkr

/-- C6 (amended): `scrape_job_description` returns none or a string of
at most 15000 characters with no leading whitespace; when the result is
shorter than 15000 characters (no truncation happened) it also has no
trailing whitespace.  Truncation at exactly 15000 characters can leave
a trailing space. -/
theorem scrape_result_bounds (env : ScrapeEnv) (url : Str) (s : Str)
    (h : scrape_job_description env url = some s) :
    s.length ≤ 15000 ∧
    (∀ c, s.head? = some c → isPySpace c = false) ∧
    (s.length < 15000 → ∀ c, s.getLast? = some c → isPySpace c = false) := by
  obtain ⟨t, ht⟩ := scrape_some_is_tidy env url s h
  rw [ht]
  exact tidy_bounds t

theorem hasSub_false (c : Char) (p : Str) :
    ∀ s : Str, c ∉ s → hasSub (c :: p) s = false := by
  intro s
  induction s with
  | nil => intro _; rfl
  | cons x xs ih =>
    intro h
    unfold hasSub
    have hx : (c == x) = false := by
      rw [beq_eq_false_iff_ne]
      intro he
      exact h (by rw [he]; exact List.mem_cons_self x xs)
    have hpre : (c :: p).isPrefixOf (x :: xs) = false := by
      simp [List.isPrefixOf, hx]
    rw [hpre]
    simp only [Bool.false_or]
    exact ih (fun hm => h (List.mem_cons_of_mem x hm))

theorem pyStrip_eq_self (s : Str)
    (h1 : ∀ c, s.head? = some c → isPySpace c = false)
    (h2 : ∀ c, s.getLast? = some c → isPySpace c = false) : pyStrip s = s := by
  unfold pyStrip
  have hd : s.dropWhile isPySpace = s := by
    cases s with
    | nil => rfl
    | cons c cs => rw [List.dropWhile_cons_of_neg (by simp [h1 c rfl])]
  rw [hd]
  have hd2 : s.reverse.dropWhile isPySpace = s.reverse := by
    cases hr : s.reverse with
    | nil => rfl
    | cons c cs =>
      have hc : s.getLast? = some c := by
        rw [← List.head?_reverse, hr]
        rfl
      rw [List.dropWhile_cons_of_neg (by simp [h2 c hc])]
  rw [hd2, List.reverse_reverse]

/-- The value of `scrape_job_description` on the Firecrawl path, for a
configured credential and a dict whose key loop selects a result. -/
theorem scrape_via_firecrawl (env : ScrapeEnv) (url key : Str) (d : Str → Option FireVal)
    (s : Str)
    (hurl : url.isEmpty = false)
    (hk : env.apiKey = some key) (hke : key.isEmpty = false)
    (hf : env.firecrawl url = some d)
    (hkr : firstKeyResult d fireKeys = some s) :
    scrape_job_description env url = some s := by
  unfold scrape_job_description
  rw [hurl]
  simp only [Bool.false_eq_true, if_false]
  rw [hk]
  dsimp only
  rw [hke]
  simp only [Bool.false_eq_true, if_false]
  rw [hf]
  dsimp only
  rw [hkr]

/-! Fixtures for the truncation counterexample. -/

def bigVal : Str := List.replicate 14999 'a' ++ [' ', 'b', 'b']
def truncEnv : ScrapeEnv :=
  ⟨some ("k".toList),
   fun _ => some (fun k => if k = ("markdown".toList) then some (.str bigVal) else none),
   fun _ => none⟩

/-- C6 counterexample: a Firecrawl result of 15002 characters whose
15000th character is a space is returned truncated to exactly 15000
characters ending in whitespace — `_tidy_text` strips before
truncating, so the returned string carries trailing whitespace. -/
theorem scrape_truncation_leaves_trailing_space :
    scrape_job_description truncEnv ("http://x.com".toList) =
      some (List.replicate 14999 'a' ++ [' ']) ∧
    (List.replicate 14999 'a' ++ [' ']).getLast? = some ' ' ∧
    isPySpace ' ' = true := by
  have hcons : bigVal = 'a' :: (List.replicate 14998 'a' ++ [' ', 'b', 'b']) := by
    unfold bigVal
    rw [show (14999 : Nat) = 14998 + 1 from rfl, List.replicate_succ]
    rfl
  have hne : bigVal.isEmpty = false := by
    rw [hcons]
    rfl
  have hmem : ('<' : Char) ∉ bigVal := by
    unfold bigVal
    intro hm
    rcases List.mem_append.mp hm with hm | hm
    · rw [List.mem_replicate] at hm
      exact absurd hm.2 (by decide)
    · simp at hm
  have hsub1 : hasSub ("<".toList) bigVal = false := hasSub_false '<' [] bigVal hmem
  have hsub2 : hasSub ("</".toList) bigVal = false := hasSub_false '<' ['/'] bigVal hmem
  have htruthy : fireTruthy (.str bigVal) = true := by
    show (!bigVal.isEmpty) = true
    rw [hne]
    rfl
  have hkey : firstKeyResult
      (fun k => if k = ("markdown".toList) then some (.str bigVal) else none) fireKeys =
      some (_tidy_text bigVal) := by
    simp only [fireKeys, firstKeyResult, htruthy, hsub1, Bool.false_and, eq_self_iff_true,
      if_true, Bool.false_eq_true, if_false]
  have hhead : ∀ c, bigVal.head? = some c → isPySpace c = false := by
    intro c hc
    rw [hcons] at hc
    simp only [List.head?_cons, Option.some.injEq] at hc
    rw [← hc]
    decide
  have hlastb : bigVal.getLast? = some 'b' := by
    unfold bigVal
    rw [show ([' ', 'b', 'b'] : Str) = [' ', 'b'] ++ ['b'] from rfl, ← List.append_assoc]
    exact List.getLast?_concat _
  have hlast : ∀ c, bigVal.getLast? = some c → isPySpace c = false := by
    intro c hc
    rw [hlastb] at hc
    simp only [Option.some.injEq] at hc
    rw [← hc]
    decide
  have hstrip : pyStrip bigVal = bigVal := pyStrip_eq_self bigVal hhead hlast
  have hlen : bigVal.length = 15002 := by
    unfold bigVal
    rw [List.length_append, List.length_replicate]
    rfl
  have htidy : _tidy_text bigVal = List.replicate 14999 'a' ++ [' '] := by
    unfold _tidy_text
    dsimp only
    rw [hstrip, hlen]
    rw [if_pos (by omega)]
    unfold bigVal
    rw [List.take_append_eq_append_take,
      List.take_of_length_le (by rw [List.length_replicate]; omega), List.length_replicate]
    rfl
  refine ⟨?_, List.getLast?_concat _, by decide⟩
  rw [← htidy]
  exact scrape_via_firecrawl truncEnv ("http://x.com".toList) ("k".toList)
    (fun k => if k = ("markdown".toList) then some (.str bigVal) else none) (_tidy_text bigVal)
    (by decide) rfl (by decide) rfl hkey

/-- Fixture whose Firecrawl markdown field is a short plain string. -/
def shortEnv : ScrapeEnv :=
  ⟨some ("k".toList),
   fun _ => some (fun k => if k = ("markdown".toList) then some (.str ("hello world".toList)) else none),
   fun _ => none⟩

/-- C6 witness: a short scraped result obeys the bounds. -/
theorem scrape_result_bounds_witness :
    scrape_job_description shortEnv ("http://x.com".toList) = some ("hello world".toList) ∧
    ("hello world".toList).length ≤ 15000 :=
  ⟨by decide,
   (scrape_result_bounds shortEnv ("http://x.com".toList) ("hello world".toList) (by decide)).1⟩

/-! The well-formed-HTML grammar for the normalization round-trip. -/

theorem toLower_eq_lt {c : Char} (h : c.toLower = '<') : c = '<' := by
  unfold Char.toLower at h
  dsimp only at h
  split at h
  · exfalso
    rename_i hr
    have hv : (Char.ofNat (c.toNat + 32)).toNat = c.toNat + 32 := by
      unfold Char.ofNat
      rw [dif_pos (Or.inl (by omega))]
      rfl
    rw [h] at hv
    have h60 : ('<' : Char).toNat = 60 := rfl
    rw [h60] at hv
    omega
  · exact h

/-- A piece of a well-formed HTML document: bracket-free text, a tag
`<name>`, a script block `<script attrs>body</script>` or a style block
`<style attrs>body</style>`. -/
inductive Piece
  | text (s : Str)
  | tag (name : Str)
  | scriptB (attrs body : Str)
  | styleB (attrs body : Str)

/-- The character sequence a piece denotes. -/
def renderPiece : Piece → Str
  | .text s => s
  | .tag n => '<' :: (n ++ ['>'])
  | .scriptB a b => '<' :: (("script".toList) ++ (a ++ ('>' :: (b ++ ('<' :: ("/script>".toList))))))
  | .styleB a b => '<' :: (("style".toList) ++ (a ++ ('>' :: (b ++ ('<' :: ("/style>".toList))))))

/-- The character sequence of a whole document. -/
def render (ps : List Piece) : Str := (ps.map renderPiece).flatten

/-- No angle brackets in a string. -/
def noAngle (s : Str) : Bool := s.all (fun c => c != '<' && c != '>')

/-- Well-formedness of one piece: text is bracket-free; a tag has a
non-empty bracket-free name that does not start a script or style
block; script/style attributes and bodies are bracket-free. -/
def pieceOK : Piece → Bool
  | .text s => noAngle s
  | .tag n => !n.isEmpty && noAngle n &&
      !isPrefixCI ("script".toList) n && !isPrefixCI ("style".toList) n
  | .scriptB a b => noAngle a && noAngle b
  | .styleB a b => noAngle a && noAngle b

/-- Well-formedness of a document. -/
def wfPieces (ps : List Piece) : Bool := ps.all pieceOK

/-! Scanning lemmas for `subBlock`. -/

theorem stripPrefixCI_none_of_ne_lt (pat : Str) (c : Char) (t : Str) (hc : c ≠ '<') :
    stripPrefixCI ('<' :: pat) (c :: t) = none := by
  simp only [stripPrefixCI]
  rw [if_neg]
  intro he
  have hl : c.toLower = '<' := by
    rw [← he]
    rfl
  exact hc (toLower_eq_lt hl)

theorem stripPrefixCI_self_append : ∀ (l t : Str), stripPrefixCI l (l ++ t) = some t := by
  intro l
  induction l with
  | nil => intro t; simp [stripPrefixCI]
  | cons a l' ih =>
    intro t
    simp only [List.cons_append, stripPrefixCI, if_pos rfl]
    exact ih t

theorem subBlock_cons_skip (pat close : Str) (ho : ('<' :: pat) ≠ []) (c : Char) (t : Str)
    (hc : c ≠ '<') :
    subBlock ('<' :: pat) close ho (c :: t) = c :: subBlock ('<' :: pat) close ho t := by
  conv_lhs => rw [subBlock]
  rw [stripPrefixCI_none_of_ne_lt pat c t hc]

theorem subBlock_append_skip (pat close : Str) (ho : ('<' :: pat) ≠ []) :
    ∀ (s t : Str), (∀ c ∈ s, c ≠ '<') →
      subBlock ('<' :: pat) close ho (s ++ t) = s ++ subBlock ('<' :: pat) close ho t := by
  intro s
  induction s with
  | nil => intro t _; rfl
  | cons c s' ih =>
    intro t hs
    rw [List.cons_append,
      subBlock_cons_skip pat close ho c (s' ++ t) (hs c (List.mem_cons_self c s')),
      ih t (fun x hx => hs x (List.mem_cons_of_mem c hx))]
    rfl

theorem findCI_cons_of_ne (ct : Str) (c : Char) (t : Str) (hc : c ≠ '<') :
    findCI ('<' :: ct) (c :: t) = (findCI ('<' :: ct) t).map (· + 1) := by
  simp only [findCI]
  rw [if_neg]
  simp only [isPrefixCI, stripPrefixCI_none_of_ne_lt ct c t hc, Option.isSome_none,
    Bool.false_eq_true, not_false_eq_true]

theorem findCI_append_skip (ct : Str) : ∀ (a b : Str), (∀ c ∈ a, c ≠ '<') →
    findCI ('<' :: ct) (a ++ b) = (findCI ('<' :: ct) b).map (· + a.length) := by
  intro a
  induction a with
  | nil =>
    intro b _
    cases h : findCI ('<' :: ct) b <;> simp [h]
  | cons c a' ih =>
    intro b ha
    rw [List.cons_append, findCI_cons_of_ne ct c (a' ++ b) (ha c (List.mem_cons_self c a')),
      ih b (fun x hx => ha x (List.mem_cons_of_mem c hx))]
    cases h : findCI ('<' :: ct) b <;> simp [List.length_cons] <;> omega

theorem findCI_self (close t : Str) (hne : close ≠ []) : findCI close (close ++ t) = some 0 := by
  cases close with
  | nil => exact absurd rfl hne
  | cons a ct =>
    rw [List.cons_append]
    simp only [findCI]
    rw [if_pos]
    simp only [isPrefixCI]
    show (stripPrefixCI (a :: ct) ((a :: ct) ++ t)).isSome = true
    rw [stripPrefixCI_self_append]
    rfl

theorem drop_append_len : ∀ (a b : Str) (n : Nat), (a ++ b).drop (a.length + n) = b.drop n := by
  intro a
  induction a with
  | nil => intro b n; simp
  | cons x a' ih =>
    intro b n
    rw [List.cons_append, List.length_cons,
      show a'.length + 1 + n = (a'.length + n) + 1 from by omega, List.drop_succ_cons]
    exact ih b n

theorem subBlock_cons_of_none (openT close : Str) (ho : openT ≠ []) (c : Char) (t : Str)
    (h : stripPrefixCI openT (c :: t) = none) :
    subBlock openT close ho (c :: t) = c :: subBlock openT close ho t := by
  conv_lhs => rw [subBlock]
  rw [h]

theorem subBlock_block (pat ct : Str) (ho : ('<' :: pat) ≠ []) (a b rest : Str)
    (ha : ∀ c ∈ a, c ≠ '<') (hb : ∀ c ∈ b, c ≠ '<') :
    subBlock ('<' :: pat) ('<' :: ct) ho
      ('<' :: (pat ++ (a ++ ('>' :: (b ++ ('<' :: (ct ++ rest))))))) =
      ' ' :: subBlock ('<' :: pat) ('<' :: ct) ho rest := by
  conv_lhs => rw [subBlock]
  have h2 : stripPrefixCI ('<' :: pat)
      ('<' :: (pat ++ (a ++ ('>' :: (b ++ ('<' :: (ct ++ rest))))))) =
      some (a ++ ('>' :: (b ++ ('<' :: (ct ++ rest))))) := by
    have h := stripPrefixCI_self_append ('<' :: pat) (a ++ ('>' :: (b ++ ('<' :: (ct ++ rest)))))
    rwa [List.cons_append] at h
  rw [h2]
  dsimp only
  have hA : ∀ c ∈ (a ++ ('>' :: b)), c ≠ '<' := by
    intro c hcm
    rcases List.mem_append.mp hcm with hx | hx
    · exact ha c hx
    · rcases List.mem_cons.mp hx with hx | hx
      · rw [hx]; decide
      · exact hb c hx
  have h3 : findCI ('<' :: ct) (a ++ ('>' :: (b ++ ('<' :: (ct ++ rest))))) =
      some ((a ++ ('>' :: b)).length) := by
    have he : (a ++ ('>' :: b)) ++ ('<' :: (ct ++ rest)) =
        a ++ ('>' :: (b ++ ('<' :: (ct ++ rest)))) := by
      simp [List.append_assoc]
    have h := findCI_append_skip ct (a ++ ('>' :: b)) ('<' :: (ct ++ rest)) hA
    rw [he] at h
    rw [h]
    have hself : findCI ('<' :: ct) ('<' :: (ct ++ rest)) = some 0 := by
      have hh := findCI_self ('<' :: ct) rest (by simp)
      rwa [List.cons_append] at hh
    rw [hself]
    simp
  rw [h3]
  dsimp only
  congr 1
  have hflat : '<' :: (pat ++ (a ++ ('>' :: (b ++ ('<' :: (ct ++ rest)))))) =
      (('<' :: pat) ++ ((a ++ ('>' :: b)) ++ ('<' :: ct))) ++ rest := by
    simp [List.append_assoc]
  rw [hflat]
  have hlen : (('<' :: pat) ++ ((a ++ ('>' :: b)) ++ ('<' :: ct))).length =
      ('<' :: pat).length + (a ++ ('>' :: b)).length + ('<' :: ct).length := by
    simp only [List.length_append, List.length_cons]
    omega
  rw [← hlen, List.drop_left]

theorem stripPrefixCI_gt_none (pat : Str) (hpat : ∀ c ∈ pat, c.toLower ≠ '>') :
    ∀ (name rest : Str), (∀ c ∈ name, c ≠ '>') → stripPrefixCI pat name = none →
      stripPrefixCI pat (name ++ ('>' :: rest)) = none := by
  intro name
  induction name generalizing pat with
  | nil =>
    intro rest _ hn
    cases pat with
    | nil => simp [stripPrefixCI] at hn
    | cons p pt =>
      rw [List.nil_append]
      simp only [stripPrefixCI]
      rw [if_neg]
      intro he
      have hp' : p.toLower = '>' := by rw [he]; rfl
      exact hpat p (List.mem_cons_self p pt) hp'
  | cons n nt ih =>
    intro rest hn hp
    cases pat with
    | nil => simp [stripPrefixCI] at hp
    | cons p pt =>
      rw [List.cons_append]
      simp only [stripPrefixCI] at hp ⊢
      by_cases hc : p.toLower = n.toLower
      · rw [if_pos hc] at hp ⊢
        exact ih pt (fun c hcm => hpat c (List.mem_cons_of_mem p hcm)) rest
          (fun c hcm => hn c (List.mem_cons_of_mem n hcm)) hp
      · rw [if_neg hc]

theorem stripPrefixCI_none_of_isPrefixCI_false {pat s : Str}
    (h : isPrefixCI pat s = false) : stripPrefixCI pat s = none := by
  unfold isPrefixCI at h
  cases hs : stripPrefixCI pat s with
  | none => rfl
  | some r => simp [hs] at h

theorem subBlock_tag_skip (pat ct : Str) (ho : ('<' :: pat) ≠ []) (name rest : Str)
    (hpat : ∀ c ∈ pat, c.toLower ≠ '>')
    (hname : ∀ c ∈ name, c ≠ '<' ∧ c ≠ '>')
    (hnp : isPrefixCI pat name = false) :
    subBlock ('<' :: pat) ('<' :: ct) ho ('<' :: (name ++ ('>' :: rest))) =
      '<' :: (name ++ ('>' :: subBlock ('<' :: pat) ('<' :: ct) ho rest)) := by
  have h2 : stripPrefixCI ('<' :: pat) ('<' :: (name ++ ('>' :: rest))) = none := by
    simp only [stripPrefixCI]
    rw [if_pos trivial]
    exact stripPrefixCI_gt_none pat hpat name rest (fun c hcm => (hname c hcm).2)
      (stripPrefixCI_none_of_isPrefixCI_false hnp)
  rw [subBlock_cons_of_none _ _ _ _ _ h2]
  rw [subBlock_append_skip pat ('<' :: ct) ho name ('>' :: rest) (fun c hcm => (hname c hcm).1)]
  rw [subBlock_cons_skip pat ('<' :: ct) ho '>' rest (by decide)]

theorem subBlock_skip_block (pat ct pat' ct' : Str) (ho : ('<' :: pat) ≠ []) (a b rest : Str)
    (ha : ∀ c ∈ a, c ≠ '<') (hb : ∀ c ∈ b, c ≠ '<')
    (hpat' : ∀ c ∈ pat', c ≠ '<') (hct' : ∀ c ∈ ct', c ≠ '<')
    (h1 : stripPrefixCI pat (pat' ++ (a ++ ('>' :: (b ++ ('<' :: (ct' ++ rest)))))) = none)
    (h2 : stripPrefixCI pat (ct' ++ rest) = none) :
    subBlock ('<' :: pat) ('<' :: ct) ho
      ('<' :: (pat' ++ (a ++ ('>' :: (b ++ ('<' :: (ct' ++ rest))))))) =
      '<' :: (pat' ++ (a ++ ('>' :: (b ++ ('<' ::
        (ct' ++ subBlock ('<' :: pat) ('<' :: ct) ho rest)))))) := by
  rw [subBlock_cons_of_none _ _ _ _ _ (by simp only [stripPrefixCI]; rw [if_pos trivial]; exact h1)]
  rw [subBlock_append_skip pat ('<' :: ct) ho pat' _ hpat']
  rw [subBlock_append_skip pat ('<' :: ct) ho a _ ha]
  rw [subBlock_cons_skip pat ('<' :: ct) ho '>' _ (by decide)]
  rw [subBlock_append_skip pat ('<' :: ct) ho b _ hb]
  rw [subBlock_cons_of_none _ _ _ _ _ (by simp only [stripPrefixCI]; rw [if_pos trivial]; exact h2)]
  rw [subBlock_append_skip pat ('<' :: ct) ho ct' rest hct']

/-- First regex pass on a document: script blocks collapse to one space. -/
def scriptToSpace : Piece → Piece
  | .scriptB _ _ => .text [' ']
  | p => p

/-- Second regex pass on a document: style blocks collapse to one space. -/
def styleToSpace : Piece → Piece
  | .styleB _ _ => .text [' ']
  | p => p

def isScriptPiece : Piece → Bool
  | .scriptB _ _ => true
  | _ => false

/-- A piece with no block structure left (text or plain tag). -/
def flatPiece : Piece → Bool
  | .text _ => true
  | .tag _ => true
  | _ => false

theorem noAngle_mem {s : Str} (h : noAngle s = true) : ∀ c ∈ s, c ≠ '<' ∧ c ≠ '>' := by
  intro c hc
  have hx := List.all_eq_true.mp h c hc
  simp only [bne_iff_ne, Bool.and_eq_true, ne_eq] at hx
  exact hx

theorem subScript_render : ∀ (ps : List Piece), wfPieces ps = true →
    subScript (render ps) = render (ps.map scriptToSpace) := by
  intro ps
  induction ps with
  | nil =>
    intro _
    simp only [render, List.map_nil, List.flatten_nil, subScript]
    rw [subBlock]
  | cons p t ih =>
    intro h
    rw [wfPieces, List.all_cons, Bool.and_eq_true] at h
    obtain ⟨hp, ht⟩ := h
    have iht := ih (by rw [wfPieces]; exact ht)
    cases p with
    | text s =>
      have hs := noAngle_mem (show noAngle s = true from hp)
      have hr : render (Piece.text s :: t) = s ++ render t := by
        simp [render, renderPiece]
      have hr2 : render ((Piece.text s :: t).map scriptToSpace) =
          s ++ render (t.map scriptToSpace) := by simp [render, renderPiece, scriptToSpace]
      rw [hr, hr2]
      simp only [subScript] at iht ⊢
      rw [subBlock_append_skip _ _ _ s _ (fun c hc => (hs c hc).1), iht]
    | tag n =>
      have hps : (!n.isEmpty && noAngle n && !isPrefixCI ("script".toList) n &&
          !isPrefixCI ("style".toList) n) = true := hp
      rw [Bool.and_eq_true, Bool.and_eq_true, Bool.and_eq_true] at hps
      obtain ⟨⟨⟨hne, hna⟩, hnsc⟩, hnst⟩ := hps
      have hs := noAngle_mem hna
      have hr : render (Piece.tag n :: t) = '<' :: (n ++ ('>' :: render t)) := by
        simp [render, renderPiece]
      have hr2 : render ((Piece.tag n :: t).map scriptToSpace) =
          '<' :: (n ++ ('>' :: render (t.map scriptToSpace))) := by
        simp [render, renderPiece, scriptToSpace]
      rw [hr, hr2]
      simp only [subScript] at iht ⊢
      rw [subBlock_tag_skip _ _ _ n _ (by decide) hs (by simpa using hnsc), iht]
    | scriptB a b =>
      have hps : (noAngle a && noAngle b) = true := hp
      rw [Bool.and_eq_true] at hps
      obtain ⟨hna, hnb⟩ := hps
      have hr : render (Piece.scriptB a b :: t) =
          '<' :: (("script".toList) ++ (a ++ ('>' :: (b ++
            ('<' :: (("/script>".toList) ++ render t)))))) := by
        simp [render, renderPiece]
      have hr2 : render ((Piece.scriptB a b :: t).map scriptToSpace) =
          ' ' :: render (t.map scriptToSpace) := by
        simp [render, renderPiece, scriptToSpace]
      rw [hr, hr2]
      simp only [subScript] at iht ⊢
      rw [subBlock_block ("script".toList) ("/script>".toList) (by simp) a b (render t)
        (fun c hc => ((noAngle_mem hna) c hc).1)
        (fun c hc => ((noAngle_mem hnb) c hc).1), iht]
    | styleB a b =>
      have hps : (noAngle a && noAngle b) = true := hp
      rw [Bool.and_eq_true] at hps
      obtain ⟨hna, hnb⟩ := hps
      have hr : render (Piece.styleB a b :: t) =
          '<' :: (("style".toList) ++ (a ++ ('>' :: (b ++
            ('<' :: (("/style>".toList) ++ render t)))))) := by
        simp [render, renderPiece]
      have hr2 : render ((Piece.styleB a b :: t).map scriptToSpace) =
          '<' :: (("style".toList) ++ (a ++ ('>' :: (b ++
            ('<' :: (("/style>".toList) ++ render (t.map scriptToSpace))))))) := by
        simp [render, renderPiece, scriptToSpace]
      rw [hr, hr2]
      simp only [subScript] at iht ⊢
      rw [subBlock_skip_block ("script".toList) ("/script>".toList) ("style".toList)
        ("/style>".toList) (by simp) a b (render t)
        (fun c hc => ((noAngle_mem hna) c hc).1)
        (fun c hc => ((noAngle_mem hnb) c hc).1)
        (by decide) (by decide) rfl rfl, iht]

theorem subStyle_render : ∀ (ps : List Piece), wfPieces ps = true →
    ps.all (fun p => !isScriptPiece p) = true →
    subStyle (render ps) = render (ps.map styleToSpace) := by
  intro ps
  induction ps with
  | nil =>
    intro _ _
    simp only [render, List.map_nil, List.flatten_nil, subStyle]
    rw [subBlock]
  | cons p t ih =>
    intro h hns
    rw [wfPieces, List.all_cons, Bool.and_eq_true] at h
    rw [List.all_cons, Bool.and_eq_true] at hns
    obtain ⟨hp, ht⟩ := h
    obtain ⟨hnsp, hnst'⟩ := hns
    have iht := ih (by rw [wfPieces]; exact ht) hnst'
    cases p with
    | text s =>
      have hs := noAngle_mem (show noAngle s = true from hp)
      have hr : render (Piece.text s :: t) = s ++ render t := by
        simp [render, renderPiece]
      have hr2 : render ((Piece.text s :: t).map styleToSpace) =
          s ++ render (t.map styleToSpace) := by simp [render, renderPiece, styleToSpace]
      rw [hr, hr2]
      simp only [subStyle] at iht ⊢
      rw [subBlock_append_skip _ _ _ s _ (fun c hc => (hs c hc).1), iht]
    | tag n =>
      have hps : (!n.isEmpty && noAngle n && !isPrefixCI ("script".toList) n &&
          !isPrefixCI ("style".toList) n) = true := hp
      rw [Bool.and_eq_true, Bool.and_eq_true, Bool.and_eq_true] at hps
      obtain ⟨⟨⟨hne, hna⟩, hnsc⟩, hnst⟩ := hps
      have hs := noAngle_mem hna
      have hr : render (Piece.tag n :: t) = '<' :: (n ++ ('>' :: render t)) := by
        simp [render, renderPiece]
      have hr2 : render ((Piece.tag n :: t).map styleToSpace) =
          '<' :: (n ++ ('>' :: render (t.map styleToSpace))) := by
        simp [render, renderPiece, styleToSpace]
      rw [hr, hr2]
      simp only [subStyle] at iht ⊢
      rw [subBlock_tag_skip _ _ _ n _ (by decide) hs (by simpa using hnst), iht]
    | scriptB a b =>
      simp [isScriptPiece] at hnsp
    | styleB a b =>
      have hps : (noAngle a && noAngle b) = true := hp
      rw [Bool.and_eq_true] at hps
      obtain ⟨hna, hnb⟩ := hps
      have hr : render (Piece.styleB a b :: t) =
          '<' :: (("style".toList) ++ (a ++ ('>' :: (b ++
            ('<' :: (("/style>".toList) ++ render t)))))) := by
        simp [render, renderPiece]
      have hr2 : render ((Piece.styleB a b :: t).map styleToSpace) =
          ' ' :: render (t.map styleToSpace) := by
        simp [render, renderPiece, styleToSpace]
      rw [hr, hr2]
      simp only [subStyle] at iht ⊢
      rw [subBlock_block ("style".toList) ("/style>".toList) (by simp) a b (render t)
        (fun c hc => ((noAngle_mem hna) c hc).1)
        (fun c hc => ((noAngle_mem hnb) c hc).1), iht]

theorem pieceOK_scriptToSpace (p : Piece) (h : pieceOK p = true) :
    pieceOK (scriptToSpace p) = true := by
  cases p with
  | text s => exact h
  | tag n => exact h
  | scriptB a b => exact (by decide : pieceOK (Piece.text ([' '])) = true)
  | styleB a b => exact h

theorem noScript_scriptToSpace (p : Piece) : (!isScriptPiece (scriptToSpace p)) = true := by
  cases p <;> rfl

theorem wfPieces_map_scriptToSpace (ps : List Piece) (h : wfPieces ps = true) :
    wfPieces (ps.map scriptToSpace) = true := by
  rw [wfPieces, List.all_eq_true] at h ⊢
  intro p hp
  rcases List.mem_map.mp hp with ⟨q, hq, rfl⟩
  exact pieceOK_scriptToSpace q (h q hq)

theorem noScript_map_scriptToSpace (ps : List Piece) :
    (ps.map scriptToSpace).all (fun p => !isScriptPiece p) = true := by
  rw [List.all_eq_true]
  intro p hp
  rcases List.mem_map.mp hp with ⟨q, hq, rfl⟩
  exact noScript_scriptToSpace q

theorem pieceOK_styleToSpace (p : Piece) (h : pieceOK p = true) :
    pieceOK (styleToSpace p) = true := by
  cases p with
  | text s => exact h
  | tag n => exact h
  | scriptB a b => exact h
  | styleB a b => exact (by decide : pieceOK (Piece.text ([' '])) = true)

theorem flatPiece_styleToSpace (p : Piece) (h : (!isScriptPiece p) = true) :
    flatPiece (styleToSpace p) = true := by
  cases p with
  | text s => rfl
  | tag n => rfl
  | scriptB a b => simp [isScriptPiece] at h
  | styleB a b => rfl

theorem wfPieces_map_styleToSpace (ps : List Piece) (h : wfPieces ps = true) :
    wfPieces (ps.map styleToSpace) = true := by
  rw [wfPieces, List.all_eq_true] at h ⊢
  intro p hp
  rcases List.mem_map.mp hp with ⟨q, hq, rfl⟩
  exact pieceOK_styleToSpace q (h q hq)

theorem flat_map_styleToSpace (ps : List Piece)
    (h : ps.all (fun p => !isScriptPiece p) = true) :
    (ps.map styleToSpace).all flatPiece = true := by
  rw [List.all_eq_true] at h ⊢
  intro p hp
  rcases List.mem_map.mp hp with ⟨q, hq, rfl⟩
  exact flatPiece_styleToSpace q (h q hq)

theorem takeWhile_ne_gt_append : ∀ (name rest : Str), (∀ c ∈ name, c ≠ '>') →
    (name ++ ('>' :: rest)).takeWhile (· != '>') = name := by
  intro name
  induction name with
  | nil => intro rest _; simp [List.takeWhile_cons]
  | cons c n ih =>
    intro rest h
    rw [List.cons_append, List.takeWhile_cons,
      if_pos (by exact bne_iff_ne.mpr (h c (List.mem_cons_self c n))),
      ih rest (fun x hx => h x (List.mem_cons_of_mem c hx))]

theorem subTags_cons_skip (c : Char) (t : Str) (hc : c ≠ '<') :
    subTags (c :: t) = c :: subTags t := by
  conv_lhs => rw [subTags]
  rw [if_neg]
  intro hx
  rw [Bool.and_eq_true, Bool.and_eq_true] at hx
  exact absurd (of_decide_eq_true hx.1.1) hc

theorem subTags_append_skip : ∀ (s t : Str), (∀ c ∈ s, c ≠ '<') →
    subTags (s ++ t) = s ++ subTags t := by
  intro s
  induction s with
  | nil => intro t _; rfl
  | cons c s' ih =>
    intro t hs
    rw [List.cons_append,
      subTags_cons_skip c (s' ++ t) (hs c (List.mem_cons_self c s')),
      ih t (fun x hx => hs x (List.mem_cons_of_mem c hx))]
    rfl

theorem subTags_tag (name rest : Str) (hne : name.isEmpty = false)
    (hname : ∀ c ∈ name, c ≠ '>') :
    subTags ('<' :: (name ++ ('>' :: rest))) = ' ' :: subTags rest := by
  conv_lhs => rw [subTags]
  rw [takeWhile_ne_gt_append name rest hname]
  rw [List.drop_left]
  rw [if_pos (by simp [hne])]
  have hd : (name ++ ('>' :: rest)).drop (name.length + 1) = rest := by
    rw [drop_append_len]
    rfl
  rw [hd]

theorem noAngle_subTags_render : ∀ (ps : List Piece), ps.all flatPiece = true →
    wfPieces ps = true → noAngle (subTags (render ps)) = true := by
  intro ps
  induction ps with
  | nil =>
    intro _ _
    simp only [render, List.map_nil, List.flatten_nil]
    rw [subTags]
    rfl
  | cons p t ih =>
    intro hf h
    rw [List.all_cons, Bool.and_eq_true] at hf
    rw [wfPieces, List.all_cons, Bool.and_eq_true] at h
    obtain ⟨hfp, hft⟩ := hf
    obtain ⟨hp, ht⟩ := h
    have iht := ih hft (by rw [wfPieces]; exact ht)
    cases p with
    | text s =>
      have hs := noAngle_mem (show noAngle s = true from hp)
      have hr : render (Piece.text s :: t) = s ++ render t := by
        simp [render, renderPiece]
      rw [hr, subTags_append_skip s _ (fun c hc => (hs c hc).1)]
      simp only [noAngle, List.all_append, Bool.and_eq_true]
      exact ⟨hp, iht⟩
    | tag n =>
      have hps : (!n.isEmpty && noAngle n && !isPrefixCI ("script".toList) n &&
          !isPrefixCI ("style".toList) n) = true := hp
      rw [Bool.and_eq_true, Bool.and_eq_true, Bool.and_eq_true] at hps
      obtain ⟨⟨⟨hne, hna⟩, hnsc⟩, hnst⟩ := hps
      have hs := noAngle_mem hna
      have hr : render (Piece.tag n :: t) = '<' :: (n ++ ('>' :: render t)) := by
        simp [render, renderPiece]
      rw [hr, subTags_tag n (render t) (by simpa using hne) (fun c hc => (hs c hc).2)]
      simp only [noAngle, List.all_cons, Bool.and_eq_true]
      exact ⟨by decide, iht⟩
    | scriptB a b => exact absurd hfp (by simp [flatPiece])
    | styleB a b => exact absurd hfp (by simp [flatPiece])

/-- No two adjacent whitespace characters. -/
def noAdjWS : Str → Bool
  | [] => true
  | [_] => true
  | a :: b :: t => !(isPySpace a && isPySpace b) && noAdjWS (b :: t)

theorem collapseWS_all (P : Char → Bool) (hP : P ' ' = true) :
    ∀ (n : Nat) (s : Str), s.length ≤ n → s.all P = true →
      (collapseWS s).all P = true := by
  intro n
  induction n with
  | zero =>
    intro s hs _
    have hnil : s = [] := List.eq_nil_of_length_eq_zero (Nat.le_zero.mp hs)
    subst hnil
    rw [collapseWS]
    rfl
  | succ m ih =>
    intro s hs hall
    cases s with
    | nil => rw [collapseWS]; rfl
    | cons c r =>
      rw [List.all_cons, Bool.and_eq_true] at hall
      obtain ⟨hc, hr⟩ := hall
      rw [List.length_cons, Nat.succ_le_succ_iff] at hs
      rw [collapseWS]
      by_cases hws : isPySpace c = true
      · rw [if_pos hws, List.all_cons, Bool.and_eq_true]
        refine ⟨hP, ih _ (le_trans (dropWhileLengthLe isPySpace r) hs) ?_⟩
        rw [List.all_eq_true] at hr ⊢
        intro x hx
        exact hr x ((List.dropWhile_suffix isPySpace).subset hx)
      · rw [if_neg hws, List.all_cons, Bool.and_eq_true]
        exact ⟨hc, ih r hs hr⟩

theorem collapseWS_head_nonspace : ∀ (s : Str),
    (∀ c, s.head? = some c → isPySpace c = false) →
    ∀ d t, collapseWS s = d :: t → isPySpace d = false := by
  intro s hs d t h
  cases s with
  | nil => rw [collapseWS] at h; cases h
  | cons c r =>
    have hc : isPySpace c = false := hs c rfl
    rw [collapseWS, if_neg (by simp [hc])] at h
    injection h with h1 _
    rw [← h1]
    exact hc

theorem collapseWS_noAdj : ∀ (n : Nat) (s : Str), s.length ≤ n →
    noAdjWS (collapseWS s) = true := by
  intro n
  induction n with
  | zero =>
    intro s hs
    have hnil : s = [] := List.eq_nil_of_length_eq_zero (Nat.le_zero.mp hs)
    subst hnil
    rw [collapseWS]
    rfl
  | succ m ih =>
    intro s hs
    cases s with
    | nil => rw [collapseWS]; rfl
    | cons c r =>
      rw [List.length_cons, Nat.succ_le_succ_iff] at hs
      rw [collapseWS]
      by_cases hws : isPySpace c = true
      · rw [if_pos hws]
        have hlen : (r.dropWhile isPySpace).length ≤ m :=
          le_trans (dropWhileLengthLe isPySpace r) hs
        have htail := ih _ hlen
        cases hX : collapseWS (r.dropWhile isPySpace) with
        | nil => rfl
        | cons d t =>
          have hd : isPySpace d = false :=
            collapseWS_head_nonspace _ (fun c' hc' => dropWhile_head?_not isPySpace r c' hc')
              d t hX
          rw [hX] at htail
          simp only [noAdjWS, hd, Bool.and_false, Bool.not_false, Bool.true_and]
          exact htail
      · rw [if_neg hws]
        have hc : isPySpace c = false := by
          cases hx : isPySpace c
          · rfl
          · exact absurd hx hws
        have htail := ih r hs
        cases hX : collapseWS r with
        | nil => rfl
        | cons d t =>
          rw [hX] at htail
          simp only [noAdjWS, hc, Bool.false_and, Bool.not_false, Bool.true_and]
          exact htail

theorem noAdjWS_cons (c : Char) (l : Str) (h : noAdjWS (c :: l) = true) :
    noAdjWS l = true := by
  cases l with
  | nil => rfl
  | cons d t =>
    rw [noAdjWS, Bool.and_eq_true] at h
    exact h.2

theorem noAdjWS_append_left : ∀ (a b : Str), noAdjWS (a ++ b) = true →
    noAdjWS a = true := by
  intro a
  induction a with
  | nil => intro b _; rfl
  | cons x a' ih =>
    intro b h
    cases a' with
    | nil => rfl
    | cons y a'' =>
      rw [List.cons_append, List.cons_append] at h
      rw [noAdjWS, Bool.and_eq_true] at h ⊢
      obtain ⟨hpair, hrest⟩ := h
      rw [← List.cons_append] at hrest
      exact ⟨hpair, ih b hrest⟩

theorem noAdjWS_append_right : ∀ (a b : Str), noAdjWS (a ++ b) = true →
    noAdjWS b = true := by
  intro a
  induction a with
  | nil => intro b h; exact h
  | cons x a' ih =>
    intro b h
    rw [List.cons_append] at h
    exact ih b (noAdjWS_cons x (a' ++ b) h)

theorem noAdjWS_pyStrip (s : Str) (h : noAdjWS s = true) :
    noAdjWS (pyStrip s) = true := by
  obtain ⟨u, hu⟩ := List.dropWhile_suffix (l := s) isPySpace
  have h2 : noAdjWS (s.dropWhile isPySpace) = true :=
    noAdjWS_append_right u _ (by rw [hu]; exact h)
  obtain ⟨v, hv⟩ := pyStrip_isPrefix s
  exact noAdjWS_append_left _ v (by rw [hv]; exact h2)

theorem pyStrip_all (P : Char → Bool) (s : Str) (h : s.all P = true) :
    (pyStrip s).all P = true := by
  rw [List.all_eq_true] at h ⊢
  intro c hc
  exact h c ((List.dropWhile_suffix isPySpace).subset ((pyStrip_isPrefix s).subset hc))

/-- All characters carried by the text pieces of a document. -/
def textChars (ps : List Piece) : Str :=
  (ps.map (fun p => match p with | Piece.text s => s | _ => [])).flatten

theorem textChars_mem (ps : List Piece) (s : Str) (hs : Piece.text s ∈ ps) :
    ∀ c ∈ s, c ∈ textChars ps := by
  intro c hc
  rw [textChars, List.mem_flatten]
  refine ⟨s, ?_, hc⟩
  rw [List.mem_map]
  exact ⟨Piece.text s, hs, rfl⟩

theorem text_piece_of_maps (ps : List Piece) (s : Str)
    (h : Piece.text s ∈ (ps.map scriptToSpace).map styleToSpace) :
    s = [' '] ∨ Piece.text s ∈ ps := by
  rcases List.mem_map.mp h with ⟨q, hq, hqe⟩
  rcases List.mem_map.mp hq with ⟨p, hp, hpe⟩
  rw [← hpe] at hqe
  cases p with
  | text u =>
    right
    have he : Piece.text u = Piece.text s := hqe
    injection he with he'
    exact he' ▸ hp
  | tag n => exact absurd (show Piece.tag n = Piece.text s from hqe) (by intro hx; cases hx)
  | scriptB a b =>
    left
    have he : Piece.text ([' ']) = Piece.text s := hqe
    injection he with he'
    exact he'.symm
  | styleB a b =>
    left
    have he : Piece.text ([' ']) = Piece.text s := hqe
    injection he with he'
    exact he'.symm

theorem subTags_render_all (P : Char → Bool) (hP : P ' ' = true) :
    ∀ (ps : List Piece), ps.all flatPiece = true → wfPieces ps = true →
    (∀ s, Piece.text s ∈ ps → s.all P = true) →
    (subTags (render ps)).all P = true := by
  intro ps
  induction ps with
  | nil =>
    intro _ _ _
    simp only [render, List.map_nil, List.flatten_nil]
    rw [subTags]
    rfl
  | cons p t ih =>
    intro hf h htext
    rw [List.all_cons, Bool.and_eq_true] at hf
    rw [wfPieces, List.all_cons, Bool.and_eq_true] at h
    obtain ⟨hfp, hft⟩ := hf
    obtain ⟨hp, ht⟩ := h
    have iht := ih hft (by rw [wfPieces]; exact ht)
      (fun s hs => htext s (List.mem_cons_of_mem p hs))
    cases p with
    | text s =>
      have hs := noAngle_mem (show noAngle s = true from hp)
      have hr : render (Piece.text s :: t) = s ++ render t := by
        simp [render, renderPiece]
      rw [hr, subTags_append_skip s _ (fun c hc => (hs c hc).1)]
      rw [List.all_append, Bool.and_eq_true]
      exact ⟨htext s (List.mem_cons_self _ _), iht⟩
    | tag n =>
      have hps : (!n.isEmpty && noAngle n && !isPrefixCI ("script".toList) n &&
          !isPrefixCI ("style".toList) n) = true := hp
      rw [Bool.and_eq_true, Bool.and_eq_true, Bool.and_eq_true] at hps
      obtain ⟨⟨⟨hne, hna⟩, hnsc⟩, hnst⟩ := hps
      have hs := noAngle_mem hna
      have hr : render (Piece.tag n :: t) = '<' :: (n ++ ('>' :: render t)) := by
        simp [render, renderPiece]
      rw [hr, subTags_tag n (render t) (by simpa using hne) (fun c hc => (hs c hc).2)]
      rw [List.all_cons, Bool.and_eq_true]
      exact ⟨hP, iht⟩
    | scriptB a b => exact absurd hfp (by simp [flatPiece])
    | styleB a b => exact absurd hfp (by simp [flatPiece])

/-- C8: For every input consisting of well-formed HTML markup — text free
of angle brackets interleaved with non-empty bracket-free tags and with
script and style blocks — `_strip_html_tags` returns text with no
angle-bracket tag markers; every output character comes from a text piece
or is an inserted space (so script/style blocks are removed entirely,
contents included, and tags are removed); no two adjacent characters are
whitespace (runs are collapsed to a single space); and the result is
trimmed on both ends. -/
theorem strip_html_normalizes (ps : List Piece) (h : wfPieces ps = true) :
    noAngle (_strip_html_tags (render ps)) = true ∧
    (_strip_html_tags (render ps)).all
      (fun c => c == ' ' || (textChars ps).contains c) = true ∧
    noAdjWS (_strip_html_tags (render ps)) = true ∧
    (∀ c, (_strip_html_tags (render ps)).head? = some c → isPySpace c = false) ∧
    (∀ c, (_strip_html_tags (render ps)).getLast? = some c → isPySpace c = false) := by
  have h1 := wfPieces_map_scriptToSpace ps h
  have h2 := noScript_map_scriptToSpace ps
  have h3 : wfPieces ((ps.map scriptToSpace).map styleToSpace) = true :=
    wfPieces_map_styleToSpace _ h1
  have h4 : ((ps.map scriptToSpace).map styleToSpace).all flatPiece = true :=
    flat_map_styleToSpace _ h2
  have hrw : _strip_html_tags (render ps) =
      pyStrip (collapseWS (subTags (render ((ps.map scriptToSpace).map styleToSpace)))) := by
    rw [_strip_html_tags, subScript_render ps h, subStyle_render _ h1 h2]
  have hAngle : noAngle (subTags (render ((ps.map scriptToSpace).map styleToSpace))) = true :=
    noAngle_subTags_render _ h4 h3
  have hA2 : (collapseWS (subTags (render ((ps.map scriptToSpace).map styleToSpace)))).all
      (fun c => c != '<' && c != '>') = true :=
    collapseWS_all _ (by decide) _ _ le_rfl hAngle
  have hA3 := pyStrip_all _ _ hA2
  have hPtext : ∀ s, Piece.text s ∈ (ps.map scriptToSpace).map styleToSpace →
      s.all (fun c => c == ' ' || (textChars ps).contains c) = true := by
    intro s hsq
    rcases text_piece_of_maps ps s hsq with hsp | hsp
    · subst hsp
      simp
    · rw [List.all_eq_true]
      intro c hc
      have hcm := textChars_mem ps s hsp c hc
      simp only [Bool.or_eq_true]
      right
      exact List.elem_iff.mpr hcm
  have hProv := subTags_render_all _ (by simp) _ h4 h3 hPtext
  have hProv2 := collapseWS_all _ (by simp) _ _ le_rfl hProv
  have hProv3 := pyStrip_all _ _ hProv2
  have hAdj := collapseWS_noAdj
    (subTags (render ((ps.map scriptToSpace).map styleToSpace))).length _ le_rfl
  have hAdj2 := noAdjWS_pyStrip _ hAdj
  rw [hrw]
  exact ⟨hA3, hProv3, hAdj2, fun c hc => pyStrip_head _ c hc, fun c hc => pyStrip_last _ c hc⟩

/-- Concrete well-formed document: a div tag, a script block with
attributes, literal text, a style block, and a closing tag. -/
def wPieces : List Piece :=
  [Piece.tag ("div".toList),
   Piece.scriptB (" type=a".toList) ("var x = 1 ; ".toList),
   Piece.text ("Hello   world".toList),
   Piece.styleB [] ("p color red ;".toList),
   Piece.tag ("/div".toList)]

/-- C8, witness: the concrete document is well-formed and its
normalization carries no angle bracket. -/
theorem strip_html_normalizes_witness :
    wfPieces wPieces = true ∧ noAngle (_strip_html_tags (render wPieces)) = true :=
  ⟨by decide, (strip_html_normalizes wPieces (by decide)).1⟩
